import Mathlib

/-!
Verification of the dungeon-puzzle solution checker (`src/checker.rs`,
`src/lib.rs`) of `terminal-tombcrawler`.

The Rust code is shallowly embedded: `Coord` is `Nat × Nat` (aglet's
unsigned `Coord`), `ICoord` is `Int × Int` (aglet's signed `CoordVec` /
icoord), a `Solution` is its single capability `is_wall : Coord → Bool`
as a total function, and the checker's hash sets become lists kept in
the deterministic board-scan order (the Rust sets are iterated in an
unspecified hash order; all theorems below are stated so that they do
not depend on which order a set is iterated in, and every concrete
evaluation is on an input whose outcome is order-independent).
-/

namespace Tombcrawler

/-- aglet `Coord`: unsigned board coordinate `(x, y)`. -/
abbrev Coord := Nat × Nat

/-- aglet `CoordVec` (icoord): signed coordinate, may lie off the board. -/
abbrev ICoord := Int × Int

/-- `CoordVec::to_coord`: `some` exactly when both components are non-negative.
(The conversion knows nothing about the board size, so it does *not* filter
positions beyond the right or bottom edge.) -/
def toCoord (v : ICoord) : Option Coord :=
  if 0 ≤ v.1 ∧ 0 ≤ v.2 then some (v.1.toNat, v.2.toNat) else none

/-- `Coord::to_icoord`. -/
def toICoord (c : Coord) : ICoord := ((c.1 : Int), (c.2 : Int))

/-- The four orthogonal neighbor offsets of a signed coordinate,
in the order north, east, south, west (`ICoord::neighbors4`). -/
def ineighbors4 (v : ICoord) : List ICoord :=
  [(v.1, v.2 - 1), (v.1 + 1, v.2), (v.1, v.2 + 1), (v.1 - 1, v.2)]

/-- `Coord::neighbors4`: the orthogonal neighbors that are still
representable as unsigned coordinates (negative positions dropped). -/
def neighbors4 (c : Coord) : List Coord :=
  (ineighbors4 (toICoord c)).filterMap toCoord

/-- `Tile`: the fixed tiles a puzzle can carry. -/
inductive Tile
  | Monster
  | TreasureChest
deriving DecidableEq, Repr

/-- `Puzzle`: board dimensions and the sparse fixed-tile map.
The hint sequences play no role in `check_solution` and are omitted. -/
structure Puzzle where
  width : Nat
  height : Nat
  tiles : Coord → Option Tile

/-- `Puzzle::get_tile`, going through `Grid::get` which is bounds-checked:
out-of-board lookups yield `none`. -/
def Puzzle.get_tile (p : Puzzle) (c : Coord) : Option Tile :=
  if c.1 < p.width ∧ c.2 < p.height then p.tiles c else none

/-- The `Solution` trait is the single capability `is_wall`. -/
abbrev Solution := Coord → Bool

/-- `FailureReason`. -/
inductive FailureReason
  | EntirelyFilledWithWalls
  | WallOverlapsFilledTile (t : Tile)
  | DiscontiguousAreas
  | DeadEndWithoutMonster
  | MonsterWithoutDeadEnd
  | NoTreasureRoom
  | LargeAreaOutsideOfTreasureRoom
deriving DecidableEq, Repr

/-- `Failure`: a reason paired with the offending coordinate. -/
structure Failure where
  pos : Coord
  reason : FailureReason
deriving DecidableEq, Repr

/-- In-bounds test `[0, width) × [0, height)`. -/
def inBounds (p : Puzzle) (c : Coord) : Prop :=
  c.1 < p.width ∧ c.2 < p.height

instance (p : Puzzle) (c : Coord) : Decidable (inBounds p c) := by
  unfold inBounds; infer_instance

/-- All board coordinates in the checker's scan order
(`for y in 0..height { for x in 0..width }`). -/
def coords (p : Puzzle) : List Coord :=
  (List.range p.height).flatMap fun y => (List.range p.width).map fun x => (x, y)

/-- First phase of `check_shape`: the sweep over every board coordinate
that buckets fixed tiles into the monster and chest sets, fails with
`WallOverlapsFilledTile` at the first (in scan order) coordinate where a
wall covers a fixed tile, and collects the open (non-wall) cells.
Returns `(openings, monsters, chests)`, each in scan order. -/
def sweep (p : Puzzle) (s : Solution) : List Coord →
    Except Failure (List Coord × List Coord × List Coord)
  | [] => Except.ok ([], [], [])
  | c :: rest =>
    if s c then
      match p.get_tile c with
      | some t => Except.error ⟨c, FailureReason.WallOverlapsFilledTile t⟩
      | none => sweep p s rest
    else
      match sweep p s rest with
      | Except.error e => Except.error e
      | Except.ok (o, m, ch) =>
        match p.get_tile c with
        | some Tile.Monster => Except.ok (c :: o, c :: m, ch)
        | some Tile.TreasureChest => Except.ok (c :: o, m, c :: ch)
        | none => Except.ok (c :: o, m, ch)

/-- The depth-first flood fill of `check_shape`: a stack of pending cells,
a visited set `rvf`, and neighbors pushed only when they are openings.
`fuel` bounds the number of pops; `check_shape` passes enough fuel for
the fill to run to completion (each pop either consumes a stack entry
pushed earlier or visits a new opening, and at most `4 * |openings|`
entries are ever pushed on top of the initial one). -/
def floodfill (openings : List Coord) : Nat → List Coord → List Coord → List Coord
  | 0, _, rvf => rvf
  | _ + 1, [], rvf => rvf
  | fuel + 1, here :: rest, rvf =>
    if rvf.contains here then floodfill openings fuel rest rvf
    else
      floodfill openings fuel
        (((neighbors4 here).filter fun n => openings.contains n) ++ rest)
        (here :: rvf)

/-- Direction deltas indexed like aglet's `Direction8` starting at north
and rotating by 45° steps: 0 = N, 1 = NE, 2 = E, 3 = SE, 4 = S, 5 = SW,
6 = W, 7 = NW (y grows downward). -/
def dirDelta : Fin 8 → ICoord
  | 0 => (0, -1)
  | 1 => (1, -1)
  | 2 => (1, 0)
  | 3 => (1, 1)
  | 4 => (0, 1)
  | 5 => (-1, 1)
  | 6 => (-1, 0)
  | 7 => (-1, -1)

/-- The per-direction probe inside the 2x2 check of `check_shape`:
the neighbor in direction `d` counts as open when it is representable
(not negative), not beyond the right/bottom edge, and not a wall.
Note the bounds test short-circuits before `is_wall` is consulted. -/
def nbOpen (p : Puzzle) (s : Solution) (c : Coord) (d : Fin 8) : Bool :=
  match toCoord (toICoord c + dirDelta d) with
  | none => false
  | some nb => !(decide (p.width ≤ nb.1) || decide (p.height ≤ nb.2) || s nb)

/-- The elbow pattern of the 2x2 check abstracted over the local
neighborhood: some orthogonal direction whose neighbor, the next 45°
diagonal, and the next orthogonal neighbor are all open. -/
def elbowOf (f : Fin 8 → Bool) : Bool :=
  [(0 : Fin 8), 2, 4, 6].any fun o => f o && f (o + 1) && f (o + 2)

/-- The 2x2 ("too big") test of `check_shape` at one open cell. -/
def oversizedAt (p : Puzzle) (s : Solution) (c : Coord) : Bool :=
  elbowOf (nbOpen p s c)

/-- The blocked-orthogonal-neighbor count of the dead-end check:
a neighbor is blocked when it is not representable (negative) or not in
the openings set. -/
def blockedCount (openings : List Coord) (c : Coord) : Nat :=
  (ineighbors4 (toICoord c)).countP fun n =>
    match toCoord n with
    | none => true
    | some nb => !openings.contains nb

/-- The main loop of `check_shape` over the openings (in scan order):
per cell, first the flood-fill reachability check, then the 2x2 check
(which only records the cell into the oversized set), then the
dead-end/monster correspondence. The Rust `match` on the count has an
`unreachable!` arm for counts above 4; a count of four probes can never
exceed 4, so the split below into `≤ 2` versus `≥ 3` is exhaustive. -/
def shapeLoop (p : Puzzle) (s : Solution) (openings monsters rvf : List Coord) :
    List Coord → Except Failure (List Coord)
  | [] => Except.ok []
  | c :: rest =>
    if rvf.contains c then
      if blockedCount openings c ≤ 2 then
        if monsters.contains c then
          Except.error ⟨c, FailureReason.MonsterWithoutDeadEnd⟩
        else
          match shapeLoop p s openings monsters rvf rest with
          | Except.error e => Except.error e
          | Except.ok bigs =>
            Except.ok (if oversizedAt p s c then c :: bigs else bigs)
      else
        if monsters.contains c then
          match shapeLoop p s openings monsters rvf rest with
          | Except.error e => Except.error e
          | Except.ok bigs =>
            Except.ok (if oversizedAt p s c then c :: bigs else bigs)
        else
          Except.error ⟨c, FailureReason.DeadEndWithoutMonster⟩
    else
      Except.error ⟨c, FailureReason.DiscontiguousAreas⟩

/-- `Puzzle::check_shape`: sweep, trivial all-walls case, flood fill,
then the per-opening loop. Returns `(chests, big_opens)`. -/
def check_shape (p : Puzzle) (s : Solution) :
    Except Failure (List Coord × List Coord) :=
  match sweep p s (coords p) with
  | Except.error e => Except.error e
  | Except.ok (openings, monsters, chests) =>
    match openings with
    | [] => Except.ok (chests, [])
    | start :: _ =>
      let rvf := floodfill openings (4 * openings.length + 2) [start] []
      match shapeLoop p s openings monsters rvf openings with
      | Except.error e => Except.error e
      | Except.ok bigs => Except.ok (chests, bigs)

/-- Inclusive range `[a, b]` as a list (empty when `b < a`). -/
def rangeIncl (a b : Nat) : List Nat :=
  (List.range (b + 1 - a)).map fun i => a + i

/-- The nine cells of the 3x3 window with top-left corner `(cx, cy)`,
in the row-major order `check_chest` pushes them into `owned`. -/
def windowCells (cx cy : Nat) : List Coord :=
  (rangeIncl cy (cy + 2)).flatMap fun y =>
    (rangeIncl cx (cx + 2)).map fun x => (x, y)

/-- The 12 border-ring positions of the window at `(cx, cy)`, as signed
coordinates, in `check_chest`'s scan order: the top/bottom pair for each
of the three columns, then the left/right pair for each of the three
rows. The four diagonal corners of the 5x5 area are never visited. -/
def borderRing (cx cy : Nat) : List ICoord :=
  ((rangeIncl cx (cx + 2)).flatMap fun x =>
    [((x : Int), (cy : Int) - 1), ((x : Int), (cy : Int) + 3)]) ++
  ((rangeIncl cy (cy + 2)).flatMap fun y =>
    [((cx : Int) - 1, (y : Int)), ((cx : Int) + 3, (y : Int))])

/-- How `check_chest` decides whether a border position is a wall:
unrepresentable (negative) positions count as walls, every other
position — including positions beyond the right or bottom edge — is
passed straight to `is_wall`. -/
def borderWall (s : Solution) (v : ICoord) : Bool :=
  match toCoord v with
  | none => true
  | some it => s it

/-- One candidate corner of `check_chest`: reject if any of the nine
window cells is a wall (`is_wall` is queried even when the cell lies
beyond the right or bottom edge — the 3x3 scan has no bounds check),
otherwise accept exactly when the border ring holds exactly one
non-wall position. The early exit on a second open border cell is
observationally the count being different from one. -/
def tryCorner (s : Solution) (cx cy : Nat) : Option (List Coord) :=
  let owned := windowCells cx cy
  if owned.any s then none
  else if (borderRing cx cy).countP (fun v => !borderWall s v) = 1 then some owned
  else none

/-- The candidate corners scanned by `check_chest`, in row-major order
(y outer, x inner): `x` over `[chest.x ∸ 2, min (chest.x ∸ 2 + 2) width]`
and likewise for `y` (`∸` is the saturating subtraction of the source). -/
def chestCorners (p : Puzzle) (chest : Coord) : List (Nat × Nat) :=
  let minX := chest.1 - 2
  let maxX := min (minX + 2) p.width
  let minY := chest.2 - 2
  let maxY := min (minY + 2) p.height
  (rangeIncl minY maxY).flatMap fun cy => (rangeIncl minX maxX).map fun cx => (cx, cy)

/-- The corner loop of `check_chest`: the first accepted candidate wins. -/
def cornersLoop (s : Solution) : List (Nat × Nat) → Option (List Coord)
  | [] => none
  | cc :: rest =>
    match tryCorner s cc.1 cc.2 with
    | some owned => some owned
    | none => cornersLoop s rest

/-- `Puzzle::check_chest`: first accepted candidate corner wins;
if none is accepted, fail with `NoTreasureRoom` at the chest. -/
def check_chest (p : Puzzle) (s : Solution) (chest : Coord) :
    Except Failure (List Coord) :=
  match cornersLoop s (chestCorners p chest) with
  | some owned => Except.ok owned
  | none => Except.error ⟨chest, FailureReason.NoTreasureRoom⟩

/-- The chest loop of `check_solution`: run `check_chest` for each chest,
stopping at the first failure, and concatenate the claimed cells. -/
def chestLoop (p : Puzzle) (s : Solution) : List Coord → Except Failure (List Coord)
  | [] => Except.ok []
  | ch :: rest =>
    match check_chest p s ch with
    | Except.error e => Except.error e
    | Except.ok owned =>
      match chestLoop p s rest with
      | Except.error e => Except.error e
      | Except.ok claimed => Except.ok (owned ++ claimed)

/-- `Puzzle::check_solution`: shape phase, chest phase, then the
reconciliation of oversized cells against the claimed union. -/
def check_solution (p : Puzzle) (s : Solution) : Except Failure Unit :=
  match check_shape p s with
  | Except.error e => Except.error e
  | Except.ok (chests, bigs) =>
    match chestLoop p s chests with
    | Except.error e => Except.error e
    | Except.ok claimed =>
      match bigs.filter (fun c => !claimed.contains c) with
      | [] => Except.ok ()
      | u :: _ => Except.error ⟨u, FailureReason.LargeAreaOutsideOfTreasureRoom⟩

/-! ### Semantic restatements used in the theorems -/

/-- The reason of a checker result, `none` on success. -/
def reasonOf : Except Failure Unit → Option FailureReason
  | Except.ok _ => none
  | Except.error e => some e.reason

/-- An open cell: on the board and not a wall. -/
def openCell (p : Puzzle) (s : Solution) (c : Coord) : Prop :=
  inBounds p c ∧ s c = false

instance (p : Puzzle) (s : Solution) (c : Coord) : Decidable (openCell p s c) := by
  unfold openCell; infer_instance

/-- The open cells in scan order (what the sweep's `openings` set holds). -/
def openingsOf (p : Puzzle) (s : Solution) : List Coord :=
  (coords p).filter fun c => !s c

/-- The flood-fill result exactly as `check_shape` computes it. -/
def reached (p : Puzzle) (s : Solution) : List Coord :=
  match openingsOf p s with
  | [] => []
  | start :: _ =>
    floodfill (openingsOf p s) (4 * (openingsOf p s).length + 2) [start] []

/-- A monster tile occupies the cell. -/
def monsterAt (p : Puzzle) (c : Coord) : Prop :=
  p.get_tile c = some Tile.Monster

instance (p : Puzzle) (c : Coord) : Decidable (monsterAt p c) := by
  unfold monsterAt; infer_instance

/-- The blocked-orthogonal-neighbor count stated semantically: a neighbor
is blocked when it is off the board or a wall. -/
def semBlocked (p : Puzzle) (s : Solution) (c : Coord) : Nat :=
  (ineighbors4 (toICoord c)).countP fun n =>
    match toCoord n with
    | none => true
    | some nb => !(decide (inBounds p nb) && !s nb)

/-- A dead end (3 or 4 blocked orthogonal neighbors) with no monster. -/
def deadEndBad (p : Puzzle) (s : Solution) (c : Coord) : Prop :=
  openCell p s c ∧ 3 ≤ semBlocked p s c ∧ ¬monsterAt p c

instance (p : Puzzle) (s : Solution) (c : Coord) : Decidable (deadEndBad p s c) := by
  unfold deadEndBad; infer_instance

/-- A monster on a cell with at most 2 blocked orthogonal neighbors. -/
def monsterBad (p : Puzzle) (s : Solution) (c : Coord) : Prop :=
  openCell p s c ∧ semBlocked p s c ≤ 2 ∧ monsterAt p c

instance (p : Puzzle) (s : Solution) (c : Coord) : Decidable (monsterBad p s c) := by
  unfold monsterBad; infer_instance

/-- One step of open-cell 4-adjacency (both endpoints open). -/
def adjStep (p : Puzzle) (s : Solution) (u v : Coord) : Prop :=
  openCell p s u ∧ openCell p s v ∧ v ∈ neighbors4 u

/-- Connectivity of open cells under 4-adjacency. -/
def Reach (p : Puzzle) (s : Solution) : Coord → Coord → Prop :=
  Relation.ReflTransGen (adjStep p s)

/-- Border-ring position open in the sense of the claim: on the board and
not a wall (off-board positions never count as open). -/
def claimOpen (p : Puzzle) (s : Solution) (v : ICoord) : Bool :=
  match toCoord v with
  | none => false
  | some c => decide (inBounds p c) && !s c

/-- A candidate window is good in the sense of the claim: all nine window
cells are non-wall, and exactly one of the twelve border-ring positions
is open, every other border position being a wall or off-board. -/
def claimGoodCorner (p : Puzzle) (s : Solution) (cx cy : Nat) : Bool :=
  (windowCells cx cy).all (fun c => !s c) &&
    ((borderRing cx cy).countP (claimOpen p s) == 1)

/-- The sliding-window formulation of the oversized test from the spec:
some run of 3 consecutive open neighbors in the cyclic 8-neighbor
sequence (runs may start at any of the 8 directions). -/
def slidingOf (f : Fin 8 → Bool) : Bool :=
  (List.finRange 8).any fun i => f i && f (i + 1) && f (i + 2)

/-- The sliding-window test restricted to runs that start at one of the
four orthogonal directions (the even positions of the cyclic sequence). -/
def slidingEvenOf (f : Fin 8 → Bool) : Bool :=
  ((List.finRange 8).filter fun i => i.val % 2 == 0).any fun i =>
    f i && f (i + 1) && f (i + 2)

/-! ### Logging variants for the debug flag

The Rust `dbgprn!` macro prints to stdout when the `debug` flag is set
and does nothing otherwise. The shallow embedding makes the prints
observable as a list of emitted messages: each variant below mirrors the
control flow of its pure counterpart and emits one entry per `dbgprn!`
site reached, exactly when `debug` is set. -/

/-- `dbgprn!`: emit the message only when `debug` is set. -/
def dbgIf (debug : Bool) (msg : List String) : List String :=
  if debug then msg else []

/-- The corner loop of `check_chest` with its debug prints. -/
def cornersLoopLog (s : Solution) (debug : Bool) :
    List (Nat × Nat) → Option (List Coord) × List String
  | [] => (none, [])
  | cc :: rest =>
    let l0 := dbgIf debug ["trying the corner"]
    match tryCorner s cc.1 cc.2 with
    | some owned => (some owned, l0 ++ dbgIf debug ["succeeded"])
    | none =>
      let r := cornersLoopLog s debug rest
      (r.1, l0 ++ dbgIf debug ["trying new corner"] ++ r.2)

/-- `check_chest` with its debug prints. -/
def checkChestLog (p : Puzzle) (s : Solution) (chest : Coord) (debug : Bool) :
    Except Failure (List Coord) × List String :=
  let l0 := dbgIf debug ["checking chest"] ++ dbgIf debug ["scanning"]
  match cornersLoopLog s debug (chestCorners p chest) with
  | (some owned, l) => (Except.ok owned, l0 ++ l)
  | (none, l) => (Except.error ⟨chest, FailureReason.NoTreasureRoom⟩, l0 ++ l)

/-- The openings loop of `check_shape` with its debug print at the
"marked as too big" site. -/
def shapeLoopLog (p : Puzzle) (s : Solution) (openings monsters rvf : List Coord)
    (debug : Bool) : List Coord → Except Failure (List Coord) × List String
  | [] => (Except.ok [], [])
  | c :: rest =>
    if rvf.contains c then
      let l0 := if oversizedAt p s c then dbgIf debug ["marked as too big"] else []
      if blockedCount openings c ≤ 2 then
        if monsters.contains c then
          (Except.error ⟨c, FailureReason.MonsterWithoutDeadEnd⟩, l0)
        else
          match shapeLoopLog p s openings monsters rvf debug rest with
          | (Except.error e, l) => (Except.error e, l0 ++ l)
          | (Except.ok bigs, l) =>
            (Except.ok (if oversizedAt p s c then c :: bigs else bigs), l0 ++ l)
      else
        if monsters.contains c then
          match shapeLoopLog p s openings monsters rvf debug rest with
          | (Except.error e, l) => (Except.error e, l0 ++ l)
          | (Except.ok bigs, l) =>
            (Except.ok (if oversizedAt p s c then c :: bigs else bigs), l0 ++ l)
        else
          (Except.error ⟨c, FailureReason.DeadEndWithoutMonster⟩, l0)
    else
      (Except.error ⟨c, FailureReason.DiscontiguousAreas⟩, [])

/-- `check_shape` with its debug prints. -/
def checkShapeLog (p : Puzzle) (s : Solution) (debug : Bool) :
    Except Failure (List Coord × List Coord) × List String :=
  match sweep p s (coords p) with
  | Except.error e => (Except.error e, [])
  | Except.ok (openings, monsters, chests) =>
    match openings with
    | [] => (Except.ok (chests, []), [])
    | start :: _ =>
      let rvf := floodfill openings (4 * openings.length + 2) [start] []
      match shapeLoopLog p s openings monsters rvf debug openings with
      | (Except.error e, l) => (Except.error e, l)
      | (Except.ok bigs, l) => (Except.ok (chests, bigs), l)

/-- The chest loop of `check_solution` with its debug prints. -/
def chestLoopLog (p : Puzzle) (s : Solution) (debug : Bool) :
    List Coord → Except Failure (List Coord) × List String
  | [] => (Except.ok [], [])
  | ch :: rest =>
    match checkChestLog p s ch debug with
    | (Except.error e, l) => (Except.error e, l)
    | (Except.ok owned, l) =>
      match chestLoopLog p s debug rest with
      | (Except.error e, l2) => (Except.error e, l ++ l2)
      | (Except.ok claimed, l2) => (Except.ok (owned ++ claimed), l ++ l2)

/-- `check_solution` with its debug prints. -/
def checkSolutionLog (p : Puzzle) (s : Solution) (debug : Bool) :
    Except Failure Unit × List String :=
  match checkShapeLog p s debug with
  | (Except.error e, l) => (Except.error e, l)
  | (Except.ok (chests, bigs), l) =>
    match chestLoopLog p s debug chests with
    | (Except.error e, l2) => (Except.error e, l ++ l2)
    | (Except.ok claimed, l2) =>
      match bigs.filter (fun c => !claimed.contains c) with
      | [] => (Except.ok (), l ++ l2)
      | u :: _ =>
        (Except.error ⟨u, FailureReason.LargeAreaOutsideOfTreasureRoom⟩,
          l ++ l2 ++ dbgIf debug ["these were not owned"])

/-! ### Concrete boards used by the counterexamples and witnesses -/

/-- 3x4 board: chest at (1,1), monster at (1,3). -/
def pA : Puzzle :=
  { width := 3, height := 4,
    tiles := fun c =>
      if c = (1, 1) then some Tile.TreasureChest
      else if c = (1, 3) then some Tile.Monster
      else none }

/-- The open cells of the valid solution of `pA`: the 3x3 room
`{0..2} × {0..2}` plus the single corridor cell `(1,3)`. -/
def openA (c : Coord) : Bool :=
  (decide (c.1 < 3) && decide (c.2 < 3)) || c = ((1, 3) : Coord)

/-- Solution of `pA` that answers wall for every other position,
off-board positions included. -/
def sA1 : Solution := fun c => !openA c

/-- Same solution except that the off-board position (3,0) — beyond the
right edge — is reported as not a wall. -/
def sA2 : Solution := fun c => if c = ((3, 0) : Coord) then false else sA1 c

/-- 3x3 board with a chest at its center. -/
def pB : Puzzle :=
  { width := 3, height := 3,
    tiles := fun c => if c = (1, 1) then some Tile.TreasureChest else none }

/-- Solution of `pB`: every in-bounds cell open, every off-board position
a wall except (0,3) just below the board, reported as not a wall. -/
def sB : Solution := fun c =>
  if c = ((0, 3) : Coord) then false
  else !(decide (c.1 < 3) && decide (c.2 < 3))

/-- 5x3 board with a chest at (0,0). -/
def pC : Puzzle :=
  { width := 5, height := 3,
    tiles := fun c => if c = (0, 0) then some Tile.TreasureChest else none }

/-- Solution of `pC`: open exactly at (0,0) and on `{1..3} × {0..2}`. -/
def sC : Solution := fun c =>
  !(c = ((0, 0) : Coord) ||
    (decide (1 ≤ c.1) && decide (c.1 ≤ 3) && decide (c.2 < 3)))

/-- 3x1 board with a monster at (2,0). -/
def pD : Puzzle :=
  { width := 3, height := 1,
    tiles := fun c => if c = (2, 0) then some Tile.Monster else none }

/-- Solution of `pD`: only (0,0) open; the monster at (2,0) is covered
by a wall, and (0,0) is a monsterless dead end. -/
def sD : Solution := fun c => !(c = ((0, 0) : Coord))

/-- 3x1 board with no fixed tiles. -/
def pE : Puzzle := { width := 3, height := 1, tiles := fun _ => none }

/-- Solution of `pE`: two isolated open cells (0,0) and (2,0), both
monsterless dead ends. -/
def sE : Solution := fun c =>
  !(c = ((0, 0) : Coord) || c = ((2, 0) : Coord))

/-- 4x4 board with no fixed tiles. -/
def pF : Puzzle := { width := 4, height := 4, tiles := fun _ => none }

/-- Solution of `pF`: a fully open 2x2 block at the origin plus an
isolated open cell at (3,3). -/
def sF : Solution := fun c =>
  !((decide (c.1 < 2) && decide (c.2 < 2)) || c = ((3, 3) : Coord))

/-- 2x2 board with no fixed tiles. -/
def pG : Puzzle := { width := 2, height := 2, tiles := fun _ => none }

/-- 3x3 board with no fixed tiles. -/
def pH : Puzzle := { width := 3, height := 3, tiles := fun _ => none }

/-- Solution of `pH`: open at (1,1) and down the column x = 2, so that
the north-east, east and south-east neighbors of (1,1) are open but no
2x2 block is. -/
def sH : Solution := fun c =>
  !(c = ((1, 1) : Coord) || c = ((2, 0) : Coord) ||
    c = ((2, 1) : Coord) || c = ((2, 2) : Coord))

/-- 5x1 board with monsters at (0,0) and (2,0). -/
def pI : Puzzle :=
  { width := 5, height := 1,
    tiles := fun c =>
      if c = (0, 0) || c = (2, 0) then some Tile.Monster else none }

/-- Solution of `pI`: exactly the two monster cells open — two valid
dead ends in two separate components. -/
def sI : Solution := fun c =>
  !(c = ((0, 0) : Coord) || c = ((2, 0) : Coord))

/-- 5x5 board with a chest at (2,2). -/
def pJ : Puzzle :=
  { width := 5, height := 5,
    tiles := fun c => if c = (2, 2) then some Tile.TreasureChest else none }

/-- Solution of `pJ`: the room `{1..3} × {1..3}` open with its single
entrance at (2,0); everything else, off-board included, is a wall. -/
def sJ : Solution := fun c =>
  !((decide (1 ≤ c.1) && decide (c.1 ≤ 3) && decide (1 ≤ c.2) && decide (c.2 ≤ 3)) ||
    c = ((2, 0) : Coord))

/-! ### Basic lemmas about the geometry helpers -/

theorem mem_rangeIncl {a b x : Nat} : x ∈ rangeIncl a b ↔ a ≤ x ∧ x ≤ b := by
  unfold rangeIncl
  simp only [List.mem_map, List.mem_range]
  constructor
  · rintro ⟨i, hi, rfl⟩; omega
  · rintro ⟨h1, h2⟩; exact ⟨x - a, by omega, by omega⟩

theorem mem_coords {p : Puzzle} {c : Coord} : c ∈ coords p ↔ inBounds p c := by
  rcases c with ⟨x, y⟩
  unfold coords inBounds
  simp only [List.mem_flatMap, List.mem_map, List.mem_range, Prod.mk.injEq]
  constructor
  · rintro ⟨y', hy, x', hx, rfl, rfl⟩; exact ⟨hx, hy⟩
  · rintro ⟨hx, hy⟩; exact ⟨y, hy, x, hx, rfl, rfl⟩

theorem mem_windowCells {cx cy : Nat} {c : Coord} :
    c ∈ windowCells cx cy ↔
      (cx ≤ c.1 ∧ c.1 ≤ cx + 2) ∧ (cy ≤ c.2 ∧ c.2 ≤ cy + 2) := by
  rcases c with ⟨x, y⟩
  unfold windowCells
  simp only [List.mem_flatMap, List.mem_map, mem_rangeIncl, Prod.mk.injEq]
  constructor
  · rintro ⟨y', hy, x', hx, rfl, rfl⟩; exact ⟨hx, hy⟩
  · rintro ⟨hx, hy⟩; exact ⟨y, hy, x, hx, rfl, rfl⟩

theorem mem_chestCorners {p : Puzzle} {chest : Coord} {cc : Nat × Nat} :
    cc ∈ chestCorners p chest ↔
      (chest.1 - 2 ≤ cc.1 ∧ cc.1 ≤ min (chest.1 - 2 + 2) p.width) ∧
      (chest.2 - 2 ≤ cc.2 ∧ cc.2 ≤ min (chest.2 - 2 + 2) p.height) := by
  rcases cc with ⟨cx, cy⟩
  unfold chestCorners
  simp only [List.mem_flatMap, List.mem_map, mem_rangeIncl, Prod.mk.injEq]
  constructor
  · rintro ⟨y', hy, x', hx, rfl, rfl⟩; exact ⟨hx, hy⟩
  · rintro ⟨hx, hy⟩; exact ⟨cy, hy, cx, hx, rfl, rfl⟩

theorem toCoord_eq_some {v : ICoord} {c : Coord} :
    toCoord v = some c ↔ (c.1 : Int) = v.1 ∧ (c.2 : Int) = v.2 := by
  rcases v with ⟨vx, vy⟩
  rcases c with ⟨x, y⟩
  unfold toCoord
  dsimp only
  split
  · rename_i h
    simp only [Option.some.injEq, Prod.mk.injEq]
    omega
  · rename_i h
    constructor
    · intro hc
      exact absurd hc (by simp)
    · rintro ⟨h1, h2⟩
      exact absurd ⟨by omega, by omega⟩ h

theorem mem_neighbors4 {a b : Coord} :
    a ∈ neighbors4 b ↔
      (a.1 = b.1 ∧ (a.2 + 1 = b.2 ∨ b.2 + 1 = a.2)) ∨
      (a.2 = b.2 ∧ (a.1 + 1 = b.1 ∨ b.1 + 1 = a.1)) := by
  rcases a with ⟨ax, ay⟩
  rcases b with ⟨bx, by'⟩
  unfold neighbors4 ineighbors4 toICoord
  simp only [List.mem_filterMap, List.mem_cons, List.mem_singleton, List.not_mem_nil,
    or_false, toCoord_eq_some]
  constructor
  · rintro ⟨v, hv, hf⟩
    rcases hv with rfl | rfl | rfl | rfl <;> dsimp only at hf <;> omega
  · intro h
    rcases h with ⟨h1, h2 | h2⟩ | ⟨h1, h2 | h2⟩
    · exact ⟨((bx : Int), (by' : Int) - 1), Or.inl rfl, by omega⟩
    · exact ⟨((bx : Int), (by' : Int) + 1), Or.inr (Or.inr (Or.inl rfl)), by omega⟩
    · exact ⟨((bx : Int) - 1, (by' : Int)), Or.inr (Or.inr (Or.inr rfl)), by omega⟩
    · exact ⟨((bx : Int) + 1, (by' : Int)), Or.inr (Or.inl rfl), by omega⟩

theorem mem_neighbors4_symm {a b : Coord} (h : a ∈ neighbors4 b) :
    b ∈ neighbors4 a := by
  rcases a with ⟨ax, ay⟩
  rcases b with ⟨bx, by'⟩
  rw [mem_neighbors4] at h ⊢
  dsimp only at h ⊢
  omega

theorem mem_openingsOf {p : Puzzle} {s : Solution} {c : Coord} :
    c ∈ openingsOf p s ↔ openCell p s c := by
  unfold openingsOf openCell
  simp [List.mem_filter, mem_coords]

theorem contains_iff {l : List Coord} {c : Coord} : l.contains c = true ↔ c ∈ l :=
  List.elem_iff

theorem get_tile_some_inBounds {p : Puzzle} {c : Coord} {t : Tile}
    (h : p.get_tile c = some t) : inBounds p c := by
  unfold Puzzle.get_tile at h
  unfold inBounds
  split at h
  · assumption
  · exact absurd h (by simp)

/-! ### Lemmas about the sweep -/

theorem sweep_ok_parts {p : Puzzle} {s : Solution} {l : List Coord}
    {o m ch : List Coord} (h : sweep p s l = Except.ok (o, m, ch)) :
    o = l.filter (fun c => !s c) ∧
    m = l.filter (fun c => p.get_tile c == some Tile.Monster) ∧
    ch = l.filter (fun c => p.get_tile c == some Tile.TreasureChest) := by
  induction l generalizing o m ch with
  | nil =>
    unfold sweep at h
    simp only [Except.ok.injEq, Prod.mk.injEq] at h
    obtain ⟨h1, h2, h3⟩ := h
    simp [← h1, ← h2, ← h3]
  | cons c rest ih =>
    unfold sweep at h
    cases hs : s c with
    | true =>
      rw [hs] at h
      simp only [if_true] at h
      cases hgt : p.get_tile c with
      | some t => rw [hgt] at h; exact absurd h (by simp)
      | none =>
        rw [hgt] at h
        obtain ⟨h1, h2, h3⟩ := ih h
        simp [List.filter_cons, hs, hgt, h1, h2, h3]
    | false =>
      rw [hs] at h
      simp only [Bool.false_eq_true, if_false] at h
      cases hrec : sweep p s rest with
      | error e => rw [hrec] at h; exact absurd h (by simp)
      | ok parts =>
        rcases parts with ⟨o', m', ch'⟩
        rw [hrec] at h
        obtain ⟨h1, h2, h3⟩ := ih hrec
        cases hgt : p.get_tile c with
        | some t =>
          cases t with
          | Monster =>
            rw [hgt] at h
            simp only [Except.ok.injEq, Prod.mk.injEq] at h
            obtain ⟨g1, g2, g3⟩ := h
            simp [← g1, ← g2, ← g3, List.filter_cons, hs, hgt, h1, h2, h3]
          | TreasureChest =>
            rw [hgt] at h
            simp only [Except.ok.injEq, Prod.mk.injEq] at h
            obtain ⟨g1, g2, g3⟩ := h
            simp [← g1, ← g2, ← g3, List.filter_cons, hs, hgt, h1, h2, h3]
        | none =>
          rw [hgt] at h
          simp only [Except.ok.injEq, Prod.mk.injEq] at h
          obtain ⟨g1, g2, g3⟩ := h
          simp [← g1, ← g2, ← g3, List.filter_cons, hs, hgt, h1, h2, h3]

theorem sweep_err_elim {p : Puzzle} {s : Solution} {l : List Coord} {e : Failure}
    (h : sweep p s l = Except.error e) :
    ∃ t, e.reason = FailureReason.WallOverlapsFilledTile t ∧
      p.get_tile e.pos = some t ∧ s e.pos = true ∧ e.pos ∈ l := by
  induction l with
  | nil => exact absurd h (by simp [sweep])
  | cons c rest ih =>
    unfold sweep at h
    cases hs : s c with
    | true =>
      rw [hs] at h
      simp only [if_true] at h
      cases hgt : p.get_tile c with
      | some t =>
        rw [hgt] at h
        simp only [Except.error.injEq] at h
        subst h
        exact ⟨t, rfl, hgt, hs, List.mem_cons_self _ _⟩
      | none =>
        rw [hgt] at h
        obtain ⟨t, h1, h2, h3, h4⟩ := ih h
        exact ⟨t, h1, h2, h3, List.mem_cons_of_mem _ h4⟩
    | false =>
      rw [hs] at h
      simp only [Bool.false_eq_true, if_false] at h
      cases hrec : sweep p s rest with
      | error e2 =>
        rw [hrec] at h
        have heq : e2 = e := by
          cases hgt : p.get_tile c <;> rw [hgt] at h
          · simpa using h
          · rename_i t'
            cases t' <;> simpa using h
        rw [heq] at hrec
        obtain ⟨t, h1, h2, h3, h4⟩ := ih hrec
        exact ⟨t, h1, h2, h3, List.mem_cons_of_mem _ h4⟩
      | ok parts =>
        rcases parts with ⟨o', m', ch'⟩
        rw [hrec] at h
        cases hgt : p.get_tile c <;> rw [hgt] at h
        · exact absurd h (by simp)
        · rename_i t'
          cases t' <;> exact absurd h (by simp)

theorem sweep_ok_no_overlap {p : Puzzle} {s : Solution} {l : List Coord}
    {x : List Coord × List Coord × List Coord} (h : sweep p s l = Except.ok x) :
    ∀ c ∈ l, s c = true → p.get_tile c = none := by
  induction l generalizing x with
  | nil => intro c hc; exact absurd hc (by simp)
  | cons c rest ih =>
    intro d hd hw
    unfold sweep at h
    cases hs : s c with
    | true =>
      rw [hs] at h
      simp only [if_true] at h
      cases hgt : p.get_tile c with
      | some t => rw [hgt] at h; exact absurd h (by simp)
      | none =>
        rw [hgt] at h
        rcases List.mem_cons.mp hd with rfl | hd2
        · exact hgt
        · exact ih h d hd2 hw
    | false =>
      rw [hs] at h
      simp only [Bool.false_eq_true, if_false] at h
      cases hrec : sweep p s rest with
      | error e => rw [hrec] at h; exact absurd h (by simp)
      | ok parts =>
        rw [hrec] at h
        rcases List.mem_cons.mp hd with rfl | hd2
        · exact absurd hw (by simp [hs])
        · exact ih hrec d hd2 hw

theorem sweep_err_of_bad {p : Puzzle} {s : Solution} {l : List Coord}
    (c : Coord) (hc : c ∈ l) (hw : s c = true) (ht : p.get_tile c ≠ none) :
    ∃ e, sweep p s l = Except.error e := by
  cases hres : sweep p s l with
  | error e => exact ⟨e, rfl⟩
  | ok x => exact absurd (sweep_ok_no_overlap hres c hc hw) ht

/-! ### Lemmas about the flood fill -/

theorem floodfill_sound {p : Puzzle} {s : Solution} {fuel : Nat}
    {todo rvf : List Coord} {x : Coord}
    (htodo : ∀ t ∈ todo, t ∈ openingsOf p s)
    (hx : x ∈ floodfill (openingsOf p s) fuel todo rvf) :
    x ∈ rvf ∨ ∃ t ∈ todo, Reach p s t x := by
  induction fuel generalizing todo rvf with
  | zero =>
    unfold floodfill at hx
    exact Or.inl hx
  | succ n ih =>
    cases todo with
    | nil =>
      unfold floodfill at hx
      exact Or.inl hx
    | cons here rest =>
      unfold floodfill at hx
      by_cases hmem : rvf.contains here
      · rw [if_pos hmem] at hx
        rcases ih (fun t ht => htodo t (List.mem_cons_of_mem _ ht)) hx with h | ⟨t, ht, hr⟩
        · exact Or.inl h
        · exact Or.inr ⟨t, List.mem_cons_of_mem _ ht, hr⟩
      · rw [if_neg hmem] at hx
        have hhere : here ∈ openingsOf p s := htodo here (List.mem_cons_self _ _)
        have hnew : ∀ t ∈ ((neighbors4 here).filter
            (fun n => (openingsOf p s).contains n)) ++ rest, t ∈ openingsOf p s := by
          intro t ht
          rcases List.mem_append.mp ht with hf | hr
          · have := List.mem_filter.mp hf
            exact contains_iff.mp this.2
          · exact htodo t (List.mem_cons_of_mem _ hr)
        rcases ih hnew hx with h | ⟨t, ht, hr⟩
        · rcases List.mem_cons.mp h with rfl | h2
          · exact Or.inr ⟨x, List.mem_cons_self _ _, Relation.ReflTransGen.refl⟩
          · exact Or.inl h2
        · rcases List.mem_append.mp ht with hf | hrest
          · have hfm := List.mem_filter.mp hf
            have htopen : t ∈ openingsOf p s := contains_iff.mp hfm.2
            have hstep : adjStep p s here t :=
              ⟨mem_openingsOf.mp hhere, mem_openingsOf.mp htopen, hfm.1⟩
            exact Or.inr ⟨here, List.mem_cons_self _ _, Relation.ReflTransGen.head hstep hr⟩
          · exact Or.inr ⟨t, List.mem_cons_of_mem _ hrest, hr⟩

/-! ### Lemmas about the openings loop of check_shape -/

theorem shapeLoop_ok_bigs {p : Puzzle} {s : Solution}
    {openings monsters rvf l bigs : List Coord}
    (h : shapeLoop p s openings monsters rvf l = Except.ok bigs) :
    bigs = l.filter (fun c => oversizedAt p s c) := by
  induction l generalizing bigs with
  | nil =>
    unfold shapeLoop at h
    simpa using h.symm
  | cons c rest ih =>
    unfold shapeLoop at h
    by_cases hr : rvf.contains c
    · rw [if_pos hr] at h
      by_cases hb : blockedCount openings c ≤ 2
      · rw [if_pos hb] at h
        by_cases hm : monsters.contains c
        · rw [if_pos hm] at h
          exact absurd h (by simp)
        · rw [if_neg hm] at h
          cases hrec : shapeLoop p s openings monsters rvf rest with
          | error e => rw [hrec] at h; exact absurd h (by simp)
          | ok bg =>
            rw [hrec] at h
            simp only [Except.ok.injEq] at h
            rw [← h, ih hrec, List.filter_cons]
      · rw [if_neg hb] at h
        by_cases hm : monsters.contains c
        · rw [if_pos hm] at h
          cases hrec : shapeLoop p s openings monsters rvf rest with
          | error e => rw [hrec] at h; exact absurd h (by simp)
          | ok bg =>
            rw [hrec] at h
            simp only [Except.ok.injEq] at h
            rw [← h, ih hrec, List.filter_cons]
        · rw [if_neg hm] at h
          exact absurd h (by simp)
    · rw [if_neg hr] at h
      exact absurd h (by simp)

theorem shapeLoop_ok_rule {p : Puzzle} {s : Solution}
    {openings monsters rvf l bigs : List Coord}
    (h : shapeLoop p s openings monsters rvf l = Except.ok bigs) :
    ∀ c ∈ l, rvf.contains c = true ∧
      (monsters.contains c = true ↔ 3 ≤ blockedCount openings c) := by
  induction l generalizing bigs with
  | nil => intro c hc; exact absurd hc (by simp)
  | cons c rest ih =>
    intro d hd
    unfold shapeLoop at h
    by_cases hr : rvf.contains c
    · rw [if_pos hr] at h
      by_cases hb : blockedCount openings c ≤ 2
      · rw [if_pos hb] at h
        by_cases hm : monsters.contains c
        · rw [if_pos hm] at h
          exact absurd h (by simp)
        · rw [if_neg hm] at h
          cases hrec : shapeLoop p s openings monsters rvf rest with
          | error e => rw [hrec] at h; exact absurd h (by simp)
          | ok bg =>
            rcases List.mem_cons.mp hd with rfl | hd2
            · refine ⟨hr, ?_, ?_⟩
              · intro hmm; exact absurd hmm hm
              · intro hbb; exact absurd hbb (by omega)
            · exact ih hrec d hd2
      · rw [if_neg hb] at h
        by_cases hm : monsters.contains c
        · rw [if_pos hm] at h
          cases hrec : shapeLoop p s openings monsters rvf rest with
          | error e => rw [hrec] at h; exact absurd h (by simp)
          | ok bg =>
            rcases List.mem_cons.mp hd with rfl | hd2
            · exact ⟨hr, fun _ => by omega, fun _ => hm⟩
            · exact ih hrec d hd2
        · rw [if_neg hm] at h
          exact absurd h (by simp)
    · rw [if_neg hr] at h
      exact absurd h (by simp)

theorem shapeLoop_err_elim {p : Puzzle} {s : Solution}
    {openings monsters rvf l : List Coord} {e : Failure}
    (h : shapeLoop p s openings monsters rvf l = Except.error e) :
    e.pos ∈ l ∧
    ((e.reason = FailureReason.DiscontiguousAreas ∧ rvf.contains e.pos = false) ∨
     (e.reason = FailureReason.MonsterWithoutDeadEnd ∧ rvf.contains e.pos = true ∧
        monsters.contains e.pos = true ∧ blockedCount openings e.pos ≤ 2) ∨
     (e.reason = FailureReason.DeadEndWithoutMonster ∧ rvf.contains e.pos = true ∧
        monsters.contains e.pos = false ∧ 3 ≤ blockedCount openings e.pos)) := by
  induction l with
  | nil => exact absurd h (by simp [shapeLoop])
  | cons c rest ih =>
    unfold shapeLoop at h
    by_cases hr : rvf.contains c
    · rw [if_pos hr] at h
      by_cases hb : blockedCount openings c ≤ 2
      · rw [if_pos hb] at h
        by_cases hm : monsters.contains c
        · rw [if_pos hm] at h
          simp only [Except.error.injEq] at h
          subst h
          exact ⟨List.mem_cons_self _ _, Or.inr (Or.inl ⟨rfl, hr, hm, hb⟩)⟩
        · rw [if_neg hm] at h
          cases hrec : shapeLoop p s openings monsters rvf rest with
          | error e2 =>
            rw [hrec] at h
            have heq : e2 = e := by simpa using h
            rw [heq] at hrec
            obtain ⟨h1, h2⟩ := ih hrec
            exact ⟨List.mem_cons_of_mem _ h1, h2⟩
          | ok bg =>
            rw [hrec] at h
            exact absurd h (by simp)
      · rw [if_neg hb] at h
        by_cases hm : monsters.contains c
        · rw [if_pos hm] at h
          cases hrec : shapeLoop p s openings monsters rvf rest with
          | error e2 =>
            rw [hrec] at h
            have heq : e2 = e := by simpa using h
            rw [heq] at hrec
            obtain ⟨h1, h2⟩ := ih hrec
            exact ⟨List.mem_cons_of_mem _ h1, h2⟩
          | ok bg =>
            rw [hrec] at h
            exact absurd h (by simp)
        · rw [if_neg hm] at h
          simp only [Except.error.injEq] at h
          subst h
          refine ⟨List.mem_cons_self _ _,
            Or.inr (Or.inr ⟨rfl, hr, by simpa using hm, ?_⟩)⟩
          show 3 ≤ blockedCount openings c
          omega
    · rw [if_neg hr] at h
      simp only [Except.error.injEq] at h
      subst h
      exact ⟨List.mem_cons_self _ _, Or.inl ⟨rfl, by simpa using hr⟩⟩

theorem shapeLoop_discont {p : Puzzle} {s : Solution}
    {openings monsters rvf l : List Coord}
    (hrule : ∀ c ∈ l, rvf.contains c = true →
      (monsters.contains c = true ↔ 3 ≤ blockedCount openings c))
    (hex : ∃ u ∈ l, rvf.contains u = false) :
    ∃ c, shapeLoop p s openings monsters rvf l =
        Except.error ⟨c, FailureReason.DiscontiguousAreas⟩ ∧
      c ∈ l ∧ rvf.contains c = false := by
  induction l with
  | nil =>
    obtain ⟨u, hu, _⟩ := hex
    exact absurd hu (by simp)
  | cons c rest ih =>
    by_cases hr : rvf.contains c
    · have hrule2 : ∀ d ∈ rest, rvf.contains d = true →
          (monsters.contains d = true ↔ 3 ≤ blockedCount openings d) :=
        fun d hd => hrule d (List.mem_cons_of_mem _ hd)
      have hex2 : ∃ u ∈ rest, rvf.contains u = false := by
        obtain ⟨u, hu, hru⟩ := hex
        rcases List.mem_cons.mp hu with rfl | hu2
        · exact absurd hr (by rw [hru]; decide)
        · exact ⟨u, hu2, hru⟩
      obtain ⟨d, hloop, hd, hrd⟩ := ih hrule2 hex2
      refine ⟨d, ?_, List.mem_cons_of_mem _ hd, hrd⟩
      unfold shapeLoop
      rw [if_pos hr]
      have hcr := hrule c (List.mem_cons_self _ _) hr
      by_cases hb : blockedCount openings c ≤ 2
      · rw [if_pos hb]
        have hm : monsters.contains c = false := by
          cases hmc : monsters.contains c
          · rfl
          · exact absurd (hcr.mp hmc) (by omega)
        rw [if_neg (by rw [hm]; decide), hloop]
      · rw [if_neg hb]
        have hm : monsters.contains c = true := hcr.mpr (by omega)
        rw [if_pos hm, hloop]
    · refine ⟨c, ?_, List.mem_cons_self _ _, by simpa using hr⟩
      unfold shapeLoop
      rw [if_neg hr]

/-! ### Translating the sweep's sets into semantic predicates -/

theorem openingsOf_contains {p : Puzzle} {s : Solution} {nb : Coord} :
    (openingsOf p s).contains nb = (decide (inBounds p nb) && !s nb) := by
  by_cases h : openCell p s nb
  · rw [contains_iff.mpr (mem_openingsOf.mpr h)]
    obtain ⟨hb, hs⟩ := h
    simp [hb, hs]
  · have h1 : (openingsOf p s).contains nb = false := by
      cases hc : (openingsOf p s).contains nb
      · rfl
      · exact absurd (mem_openingsOf.mp (contains_iff.mp hc)) h
    rw [h1]
    by_cases hb : inBounds p nb
    · have hs : s nb = true := by
        cases hs : s nb
        · exact absurd ⟨hb, hs⟩ h
        · rfl
      simp [hb, hs]
    · simp [hb]

theorem blockedCount_eq_semBlocked {p : Puzzle} {s : Solution} {c : Coord} :
    blockedCount (openingsOf p s) c = semBlocked p s c := by
  unfold blockedCount semBlocked
  apply List.countP_congr
  intro n _
  cases htc : toCoord n
  · simp only [htc]
  · simp only [htc]
    rw [openingsOf_contains]

theorem monsters_contains {p : Puzzle} {c : Coord} :
    ((coords p).filter fun d => p.get_tile d == some Tile.Monster).contains c = true ↔
      monsterAt p c := by
  unfold monsterAt
  rw [contains_iff, List.mem_filter]
  simp only [beq_iff_eq, mem_coords]
  constructor
  · rintro ⟨_, h⟩; exact h
  · intro h; exact ⟨get_tile_some_inBounds h, h⟩

/-! ### Decomposing check_shape -/

theorem check_shape_ok_elim {p : Puzzle} {s : Solution} {chests bigs : List Coord}
    (h : check_shape p s = Except.ok (chests, bigs)) :
    chests = (coords p).filter (fun c => p.get_tile c == some Tile.TreasureChest) ∧
    bigs = (openingsOf p s).filter (fun c => oversizedAt p s c) ∧
    (∀ c ∈ openingsOf p s, monsterAt p c ↔ 3 ≤ semBlocked p s c) := by
  unfold check_shape at h
  cases hsw : sweep p s (coords p) with
  | error e => rw [hsw] at h; exact absurd h (by simp)
  | ok parts =>
    rcases parts with ⟨o, m, ch⟩
    rw [hsw] at h
    obtain ⟨ho, hm, hch⟩ := sweep_ok_parts hsw
    have hoo : o = openingsOf p s := ho
    cases hco : o with
    | nil =>
      rw [hco] at h
      simp only [Except.ok.injEq, Prod.mk.injEq] at h
      obtain ⟨h1, h2⟩ := h
      refine ⟨by rw [← h1, hch], ?_, ?_⟩
      · rw [← h2, ← hoo, hco]
        rfl
      · intro c hc
        rw [← hoo, hco] at hc
        exact absurd hc (by simp)
    | cons st rest =>
      rw [hco] at h
      simp only at h
      cases hloop : shapeLoop p s (st :: rest) m
          (floodfill (st :: rest) (4 * (st :: rest).length + 2) [st] [])
          (st :: rest) with
      | error e => rw [hloop] at h; exact absurd h (by simp)
      | ok bg =>
        rw [hloop] at h
        simp only [Except.ok.injEq, Prod.mk.injEq] at h
        obtain ⟨h1, h2⟩ := h
        refine ⟨by rw [← h1, hch], ?_, ?_⟩
        · rw [← h2, shapeLoop_ok_bigs hloop, ← hco, hoo]
        · intro c hc
          have hlist : (st :: rest : List Coord) = openingsOf p s := hco.symm.trans hoo
          have hcin : c ∈ st :: rest := by rw [hlist]; exact hc
          have hrule := (shapeLoop_ok_rule hloop c hcin).2
          rw [hlist, blockedCount_eq_semBlocked, hm] at hrule
          exact ⟨fun hmon => hrule.mp (monsters_contains.mpr hmon),
            fun h3 => monsters_contains.mp (hrule.mpr h3)⟩

theorem check_shape_err_elim {p : Puzzle} {s : Solution} {e : Failure}
    (h : check_shape p s = Except.error e) :
    sweep p s (coords p) = Except.error e ∨
    (openingsOf p s ≠ [] ∧
      shapeLoop p s (openingsOf p s)
        ((coords p).filter fun d => p.get_tile d == some Tile.Monster)
        (reached p s) (openingsOf p s) = Except.error e) := by
  unfold check_shape at h
  cases hsw : sweep p s (coords p) with
  | error e2 =>
    rw [hsw] at h
    simp only [Except.error.injEq] at h
    refine Or.inl ?_
    rw [← h]
  | ok parts =>
    rcases parts with ⟨o, m, ch⟩
    rw [hsw] at h
    obtain ⟨ho, hm, hch⟩ := sweep_ok_parts hsw
    cases hco : o with
    | nil => rw [hco] at h; exact absurd h (by simp)
    | cons st rest =>
      rw [hco] at h
      simp only at h
      cases hloop : shapeLoop p s (st :: rest) m
          (floodfill (st :: rest) (4 * (st :: rest).length + 2) [st] [])
          (st :: rest) with
      | ok bg => rw [hloop] at h; exact absurd h (by simp)
      | error e2 =>
        rw [hloop] at h
        simp only [Except.error.injEq] at h
        subst h
        have hlist : (st :: rest : List Coord) = openingsOf p s :=
          hco.symm.trans ho
        have hre : reached p s =
            floodfill (st :: rest) (4 * (st :: rest).length + 2) [st] [] := by
          unfold reached
          rw [← hlist]
        refine Or.inr ⟨by rw [← hlist]; simp, ?_⟩
        rw [← hlist, ← hm, hre]
        exact hloop

/-! ### Lemmas about the chest phase -/

theorem cornersLoop_some_elim {s : Solution} {l : List (Nat × Nat)}
    {owned : List Coord} (h : cornersLoop s l = some owned) :
    ∃ cc ∈ l, tryCorner s cc.1 cc.2 = some owned := by
  induction l with
  | nil => exact absurd h (by simp [cornersLoop])
  | cons cc rest ih =>
    unfold cornersLoop at h
    cases htc : tryCorner s cc.1 cc.2 with
    | some ow =>
      rw [htc] at h
      simp only [Option.some.injEq] at h
      subst h
      exact ⟨cc, List.mem_cons_self _ _, htc⟩
    | none =>
      rw [htc] at h
      obtain ⟨dd, hd, hdt⟩ := ih h
      exact ⟨dd, List.mem_cons_of_mem _ hd, hdt⟩

theorem cornersLoop_none_iff {s : Solution} {l : List (Nat × Nat)} :
    cornersLoop s l = none ↔ ∀ cc ∈ l, tryCorner s cc.1 cc.2 = none := by
  induction l with
  | nil => simp [cornersLoop]
  | cons cc rest ih =>
    unfold cornersLoop
    cases htc : tryCorner s cc.1 cc.2 with
    | some ow =>
      simp only [reduceCtorEq, false_iff, not_forall]
      exact ⟨cc, List.mem_cons_self _ _, by simp [htc]⟩
    | none =>
      rw [ih]
      constructor
      · intro hall dd hd
        rcases List.mem_cons.mp hd with rfl | hd2
        · exact htc
        · exact hall dd hd2
      · intro hall dd hd
        exact hall dd (List.mem_cons_of_mem _ hd)

theorem check_chest_ok_elim {p : Puzzle} {s : Solution} {chest : Coord}
    {owned : List Coord} (h : check_chest p s chest = Except.ok owned) :
    ∃ cc ∈ chestCorners p chest, tryCorner s cc.1 cc.2 = some owned := by
  unfold check_chest at h
  cases hcl : cornersLoop s (chestCorners p chest) with
  | some ow =>
    rw [hcl] at h
    simp only [Except.ok.injEq] at h
    subst h
    exact cornersLoop_some_elim hcl
  | none => rw [hcl] at h; exact absurd h (by simp)

theorem check_chest_err_elim {p : Puzzle} {s : Solution} {chest : Coord}
    {e : Failure} (h : check_chest p s chest = Except.error e) :
    e = ⟨chest, FailureReason.NoTreasureRoom⟩ ∧
      ∀ cc ∈ chestCorners p chest, tryCorner s cc.1 cc.2 = none := by
  unfold check_chest at h
  cases hcl : cornersLoop s (chestCorners p chest) with
  | some ow => rw [hcl] at h; exact absurd h (by simp)
  | none =>
    rw [hcl] at h
    simp only [Except.error.injEq] at h
    exact ⟨h.symm, cornersLoop_none_iff.mp hcl⟩

theorem tryCorner_some_iff {s : Solution} {cx cy : Nat} {owned : List Coord} :
    tryCorner s cx cy = some owned ↔
      (∀ c ∈ windowCells cx cy, s c = false) ∧
      (borderRing cx cy).countP (fun v => !borderWall s v) = 1 ∧
      owned = windowCells cx cy := by
  unfold tryCorner
  by_cases ha : (windowCells cx cy).any s
  · rw [if_pos ha]
    simp only [reduceCtorEq, false_iff, not_and]
    intro hall
    obtain ⟨c, hc, hsc⟩ := List.any_eq_true.mp ha
    exact absurd (hall c hc) (by simp [hsc])
  · rw [if_neg ha]
    have hall : ∀ c ∈ windowCells cx cy, s c = false := by
      intro c hc
      cases hsc : s c
      · rfl
      · exact absurd (List.any_eq_true.mpr ⟨c, hc, hsc⟩) ha
    by_cases hcnt : (borderRing cx cy).countP (fun v => !borderWall s v) = 1
    · rw [if_pos hcnt]
      simp only [Option.some.injEq]
      constructor
      · intro h; exact ⟨hall, hcnt, h.symm⟩
      · rintro ⟨_, _, rfl⟩; rfl
    · rw [if_neg hcnt]
      constructor
      · intro hcontra; exact absurd hcontra (by simp)
      · rintro ⟨_, hc1, _⟩; exact absurd hc1 hcnt

theorem chestLoop_err_elim {p : Puzzle} {s : Solution} {l : List Coord}
    {e : Failure} (h : chestLoop p s l = Except.error e) :
    e.reason = FailureReason.NoTreasureRoom ∧ e.pos ∈ l := by
  induction l with
  | nil => exact absurd h (by simp [chestLoop])
  | cons ch rest ih =>
    unfold chestLoop at h
    cases hcc : check_chest p s ch with
    | error e2 =>
      rw [hcc] at h
      simp only [Except.error.injEq] at h
      subst h
      obtain ⟨he, _⟩ := check_chest_err_elim hcc
      subst he
      exact ⟨rfl, List.mem_cons_self _ _⟩
    | ok owned =>
      rw [hcc] at h
      cases hrec : chestLoop p s rest with
      | error e2 =>
        rw [hrec] at h
        simp only [Except.error.injEq] at h
        subst h
        obtain ⟨h1, h2⟩ := ih hrec
        exact ⟨h1, List.mem_cons_of_mem _ h2⟩
      | ok claimed => rw [hrec] at h; exact absurd h (by simp)

/-! ### check_shape only reads in-bounds values of the solution -/

theorem sweep_congr {p : Puzzle} {s1 s2 : Solution} {l : List Coord}
    (h : ∀ c ∈ l, s1 c = s2 c) : sweep p s1 l = sweep p s2 l := by
  induction l with
  | nil => rfl
  | cons c rest ih =>
    have hc := h c (List.mem_cons_self _ _)
    have hrest := ih fun d hd => h d (List.mem_cons_of_mem _ hd)
    unfold sweep
    rw [hc, hrest]

theorem nbOpen_congr {p : Puzzle} {s1 s2 : Solution} {c : Coord} {d : Fin 8}
    (h : ∀ c', inBounds p c' → s1 c' = s2 c') :
    nbOpen p s1 c d = nbOpen p s2 c d := by
  unfold nbOpen
  cases htc : toCoord (toICoord c + dirDelta d) with
  | none => rfl
  | some nb =>
    dsimp only
    by_cases hx : p.width ≤ nb.1
    · simp [hx]
    · by_cases hy : p.height ≤ nb.2
      · simp [hy]
      · rw [h nb ⟨by omega, by omega⟩]

theorem oversizedAt_congr {p : Puzzle} {s1 s2 : Solution} {c : Coord}
    (h : ∀ c', inBounds p c' → s1 c' = s2 c') :
    oversizedAt p s1 c = oversizedAt p s2 c := by
  unfold oversizedAt
  have : nbOpen p s1 c = nbOpen p s2 c := funext fun d => nbOpen_congr h
  rw [this]

theorem shapeLoop_congr {p : Puzzle} {s1 s2 : Solution}
    {openings monsters rvf l : List Coord}
    (h : ∀ c', inBounds p c' → s1 c' = s2 c') :
    shapeLoop p s1 openings monsters rvf l = shapeLoop p s2 openings monsters rvf l := by
  induction l with
  | nil => rfl
  | cons c rest ih =>
    unfold shapeLoop
    rw [ih, oversizedAt_congr h]

/-! ### The debug flag only adds log entries -/

theorem cornersLoopLog_fst {s : Solution} {debug : Bool} {l : List (Nat × Nat)} :
    (cornersLoopLog s debug l).1 = cornersLoop s l := by
  induction l with
  | nil => rfl
  | cons cc rest ih =>
    unfold cornersLoopLog cornersLoop
    cases htc : tryCorner s cc.1 cc.2
    · simpa using ih
    · rfl

theorem checkChestLog_fst {p : Puzzle} {s : Solution} {chest : Coord}
    {debug : Bool} :
    (checkChestLog p s chest debug).1 = check_chest p s chest := by
  unfold checkChestLog check_chest
  have h : (cornersLoopLog s debug (chestCorners p chest)).1 =
      cornersLoop s (chestCorners p chest) := cornersLoopLog_fst
  rcases hres : cornersLoopLog s debug (chestCorners p chest) with ⟨r, lg⟩
  rw [hres] at h
  rw [← h]
  cases r <;> rfl

theorem shapeLoopLog_fst {p : Puzzle} {s : Solution}
    {openings monsters rvf l : List Coord} {debug : Bool} :
    (shapeLoopLog p s openings monsters rvf debug l).1 =
      shapeLoop p s openings monsters rvf l := by
  induction l with
  | nil => rfl
  | cons c rest ih =>
    unfold shapeLoopLog shapeLoop
    by_cases hr : rvf.contains c
    · rw [if_pos hr, if_pos hr]
      by_cases hb : blockedCount openings c ≤ 2
      · rw [if_pos hb, if_pos hb]
        by_cases hm : monsters.contains c
        · rw [if_pos hm, if_pos hm]
        · rw [if_neg hm, if_neg hm]
          rcases hrec : shapeLoopLog p s openings monsters rvf debug rest with ⟨r, lg⟩
          rw [hrec] at ih
          cases r with
          | error e => rw [← ih]
          | ok bg => rw [← ih]
      · rw [if_neg hb, if_neg hb]
        by_cases hm : monsters.contains c
        · rw [if_pos hm, if_pos hm]
          rcases hrec : shapeLoopLog p s openings monsters rvf debug rest with ⟨r, lg⟩
          rw [hrec] at ih
          cases r with
          | error e => rw [← ih]
          | ok bg => rw [← ih]
        · rw [if_neg hm, if_neg hm]
    · rw [if_neg hr, if_neg hr]

theorem checkShapeLog_fst {p : Puzzle} {s : Solution} {debug : Bool} :
    (checkShapeLog p s debug).1 = check_shape p s := by
  unfold checkShapeLog check_shape
  cases hsw : sweep p s (coords p) with
  | error e => rfl
  | ok parts =>
    rcases parts with ⟨o, m, ch⟩
    cases o with
    | nil => rfl
    | cons st rest =>
      simp only
      have h : (shapeLoopLog p s (st :: rest) m
            (floodfill (st :: rest) (4 * (st :: rest).length + 2) [st] [])
            debug (st :: rest)).1 =
          shapeLoop p s (st :: rest) m
            (floodfill (st :: rest) (4 * (st :: rest).length + 2) [st] [])
            (st :: rest) := shapeLoopLog_fst
      rcases hres : shapeLoopLog p s (st :: rest) m
          (floodfill (st :: rest) (4 * (st :: rest).length + 2) [st] [])
          debug (st :: rest) with ⟨r, lg⟩
      rw [hres] at h
      rw [← h]
      cases r <;> rfl

theorem chestLoopLog_fst {p : Puzzle} {s : Solution} {debug : Bool}
    {l : List Coord} :
    (chestLoopLog p s debug l).1 = chestLoop p s l := by
  induction l with
  | nil => rfl
  | cons ch rest ih =>
    unfold chestLoopLog chestLoop
    have h1 : (checkChestLog p s ch debug).1 = check_chest p s ch :=
      checkChestLog_fst
    rcases hres : checkChestLog p s ch debug with ⟨r, lg⟩
    rw [hres] at h1
    rw [← h1]
    cases r with
    | error e => rfl
    | ok owned =>
      simp only
      rcases hrec : chestLoopLog p s debug rest with ⟨r2, lg2⟩
      rw [hrec] at ih
      rw [← ih]
      cases r2 <;> rfl

theorem checkSolutionLog_fst {p : Puzzle} {s : Solution} {debug : Bool} :
    (checkSolutionLog p s debug).1 = check_solution p s := by
  unfold checkSolutionLog check_solution
  have h1 : (checkShapeLog p s debug).1 = check_shape p s := checkShapeLog_fst
  rcases hres : checkShapeLog p s debug with ⟨r, lg⟩
  rw [hres] at h1
  rw [← h1]
  cases r with
  | error e => rfl
  | ok parts =>
    rcases parts with ⟨chests, bigs⟩
    simp only
    have h2 : (chestLoopLog p s debug chests).1 = chestLoop p s chests :=
      chestLoopLog_fst
    rcases hrec : chestLoopLog p s debug chests with ⟨r2, lg2⟩
    rw [hrec] at h2
    rw [← h2]
    cases r2 with
    | error e => rfl
    | ok claimed =>
      simp only
      cases bigs.filter (fun c => !claimed.contains c) <;> rfl

/-! ### The claim's notion of an open border position -/

theorem claimOpen_eq_notBorderWall {p : Puzzle} {s : Solution}
    (hOOB : ∀ c, ¬inBounds p c → s c = true) (v : ICoord) :
    claimOpen p s v = !borderWall s v := by
  unfold claimOpen borderWall
  cases htc : toCoord v with
  | none => rfl
  | some c =>
    dsimp only
    by_cases hb : inBounds p c
    · simp [hb]
    · simp [hb, hOOB c hb]

theorem claimGoodCorner_iff {p : Puzzle} {s : Solution} {cx cy : Nat}
    (hOOB : ∀ c, ¬inBounds p c → s c = true) :
    claimGoodCorner p s cx cy = true ↔
      (∀ c ∈ windowCells cx cy, s c = false) ∧
      (borderRing cx cy).countP (fun v => !borderWall s v) = 1 := by
  unfold claimGoodCorner
  rw [List.countP_congr fun v _ => by rw [claimOpen_eq_notBorderWall hOOB v]]
  rw [Bool.and_eq_true, List.all_eq_true, beq_iff_eq]
  constructor
  · rintro ⟨h1, h2⟩
    exact ⟨fun c hc => by simpa using h1 c hc, h2⟩
  · rintro ⟨h1, h2⟩
    exact ⟨fun c hc => by simp [h1 c hc], h2⟩

/-! ### The all-wall solution on a tile-free board -/

theorem sweep_allwall {p : Puzzle} {l : List Coord}
    (h : ∀ c ∈ l, p.get_tile c = none) :
    sweep p (fun _ => true) l = Except.ok ([], [], []) := by
  induction l with
  | nil => rfl
  | cons c rest ih =>
    unfold sweep
    rw [if_pos rfl, h c (List.mem_cons_self _ _)]
    exact ih fun d hd => h d (List.mem_cons_of_mem _ hd)

/-! ### Local neighborhood facts -/

set_option maxRecDepth 4096 in
theorem elbowOf_eq_slidingEvenOf : ∀ f : Fin 8 → Bool, elbowOf f = slidingEvenOf f := by
  decide

theorem adjStep_symm {p : Puzzle} {s : Solution} : Symmetric (adjStep p s) := by
  rintro u v ⟨hu, hv, hm⟩
  exact ⟨hv, hu, mem_neighbors4_symm hm⟩

/-! ### The claims -/

/-- C6: for every Puzzle and Solution, a wall over a fixed tile makes
`check_solution` fail with `WallOverlapsFilledTile` carrying that tile's
kind at such a coordinate, and conversely `WallOverlapsFilledTile` is
returned only when a wall covers a fixed tile. -/
theorem claim6_wall_overlaps_filled_tile (p : Puzzle) (s : Solution) :
    ((∃ c, inBounds p c ∧ p.get_tile c ≠ none ∧ s c = true) →
      ∃ c t, check_solution p s =
          Except.error ⟨c, FailureReason.WallOverlapsFilledTile t⟩ ∧
        p.get_tile c = some t ∧ s c = true) ∧
    (∀ c t, check_solution p s =
        Except.error ⟨c, FailureReason.WallOverlapsFilledTile t⟩ →
      p.get_tile c = some t ∧ s c = true) := by
  constructor
  · rintro ⟨c, hb, ht, hw⟩
    obtain ⟨e, he⟩ := sweep_err_of_bad c (mem_coords.mpr hb) hw ht
    obtain ⟨t, hr, hgt, hsw, _⟩ := sweep_err_elim he
    have hcs : check_solution p s = Except.error e := by
      unfold check_solution check_shape
      rw [he]
    rcases e with ⟨pos, reason⟩
    dsimp only at hr hgt hsw
    subst hr
    exact ⟨pos, t, hcs, hgt, hsw⟩
  · intro c t h
    unfold check_solution at h
    cases hcs : check_shape p s with
    | error e =>
      rw [hcs] at h
      simp only [Except.error.injEq] at h
      subst h
      rcases check_shape_err_elim hcs with hsw | ⟨_, hloop⟩
      · obtain ⟨t2, hr, hgt, hw, _⟩ := sweep_err_elim hsw
        dsimp only at hr hgt hw
        simp only [FailureReason.WallOverlapsFilledTile.injEq] at hr
        subst hr
        exact ⟨hgt, hw⟩
      · obtain ⟨_, hcases⟩ := shapeLoop_err_elim hloop
        rcases hcases with ⟨hr, _⟩ | ⟨hr, _⟩ | ⟨hr, _⟩ <;>
          exact absurd hr (by simp)
    | ok parts =>
      rcases parts with ⟨chests, bigs⟩
      rw [hcs] at h
      simp only at h
      cases hcl : chestLoop p s chests with
      | error e2 =>
        rw [hcl] at h
        simp only [Except.error.injEq] at h
        obtain ⟨hr, _⟩ := chestLoop_err_elim hcl
        rw [h] at hr
        exact absurd hr (by simp)
      | ok claimed =>
        rw [hcl] at h
        simp only at h
        cases hfil : bigs.filter (fun c => !claimed.contains c) with
        | nil => rw [hfil] at h; exact absurd h (by simp)
        | cons u rest =>
          rw [hfil] at h
          simp only [Except.error.injEq, Failure.mk.injEq] at h
          exact absurd h.2 (by simp)

/-- C6 witness: on the 3x1 board `pD` the solution `sD` covers the
monster at (2,0) with a wall, and checking fails with
`WallOverlapsFilledTile Monster` there. -/
theorem claim6_witness :
    ∃ c t, check_solution pD sD =
        Except.error ⟨c, FailureReason.WallOverlapsFilledTile t⟩ ∧
      pD.get_tile c = some t ∧ sD c = true :=
  (claim6_wall_overlaps_filled_tile pD sD).1
    ⟨(2, 0), by decide, by decide, by decide⟩

/-- C7 counterexample: on board `pH` with solution `sH` the cell (1,1)
has its NE, E and SE neighbors open (a run of 3 consecutive open
neighbors in the cyclic 8-neighbor sequence), yet the four-direction
elbow test of the code does not mark it oversized: the two formulations
of the oversized test are not equivalent. -/
theorem claim7_counterexample :
    oversizedAt pH sH (1, 1) = false ∧
    slidingOf (nbOpen pH sH (1, 1)) = true := by
  exact ⟨by decide, by decide⟩

/-- C7 amended: the four-direction elbow test coincides with the
sliding-window test restricted to runs of 3 consecutive open neighbors
that start at an orthogonal direction (the even positions of the cyclic
sequence); runs starting at a diagonal are not detected, so the
unrestricted cyclic sliding-window test is strictly weaker. -/
theorem claim7_elbow_eq_orthogonal_runs (p : Puzzle) (s : Solution) (c : Coord) :
    oversizedAt p s c = slidingEvenOf (nbOpen p s c) := by
  unfold oversizedAt
  exact elbowOf_eq_slidingEvenOf (nbOpen p s c)

/-- C8 counterexample: the solutions `sA1` and `sA2` agree on every
in-bounds cell of `pA` and differ only at the off-board position (3,0),
yet `check_solution` accepts the first and rejects the second — so the
checker does consult `is_wall` at out-of-bounds coordinates (during the
chest-room scans). -/
theorem claim8_counterexample :
    ((coords pA).all fun c => sA1 c == sA2 c) = true ∧
    check_solution pA sA1 = Except.ok () ∧
    check_solution pA sA2 =
      Except.error ⟨(1, 1), FailureReason.NoTreasureRoom⟩ := by
  exact ⟨by decide, by rfl, by rfl⟩

/-- C8 amended: `check_shape` (the sweep, the flood fill, the 2x2 scan
and the dead-end scan) never depends on out-of-bounds values of
`is_wall`: its verdict is identical for any two solutions that agree on
the board. Only the chest-room 3x3 and border-ring scans of
`check_chest` may query `is_wall` beyond the right or bottom edge. -/
theorem claim8_shape_reads_only_inbounds (p : Puzzle) (s1 s2 : Solution)
    (h : ∀ c, inBounds p c → s1 c = s2 c) :
    check_shape p s1 = check_shape p s2 := by
  unfold check_shape
  rw [sweep_congr fun c hc => h c (mem_coords.mp hc)]
  cases hsw : sweep p s2 (coords p) with
  | error e => rfl
  | ok parts =>
    rcases parts with ⟨o, m, ch⟩
    cases o with
    | nil => rfl
    | cons st rest =>
      simp only
      rw [shapeLoop_congr h]

/-- C8 amended, witness: the two solutions of the counterexample agree
in bounds, so the shape phase cannot tell them apart. -/
theorem claim8_witness : check_shape pA sA1 = check_shape pA sA2 :=
  claim8_shape_reads_only_inbounds pA sA1 sA2 (by
    intro c hc
    have hne : c ≠ ((3, 0) : Coord) := by
      intro heq
      subst heq
      exact absurd hc.1 (by decide)
    show sA1 c = sA2 c
    unfold sA2
    rw [if_neg hne])

/-- C9 counterexample: the 2x2 board `pG` carries no fixed tiles, yet
the all-open solution is rejected: all four cells are oversized and no
chest claims them, so checking fails with
`LargeAreaOutsideOfTreasureRoom` instead of accepting. -/
theorem claim9_counterexample :
    reasonOf (check_solution pG (fun _ => false)) =
      some FailureReason.LargeAreaOutsideOfTreasureRoom := by
  decide

/-- C9 amended: on a board with zero fixed tiles the all-wall Solution
is accepted (the openings set is empty and the puzzle is vacuously
valid); the all-open Solution is not accepted in general. -/
theorem claim9_allwall_accepted (p : Puzzle)
    (h : ∀ c, p.get_tile c = none) :
    check_solution p (fun _ => true) = Except.ok () := by
  unfold check_solution check_shape
  rw [sweep_allwall fun c _ => h c]
  rfl

/-- C9 witness: the all-wall solution of the tile-free 2x2 board is
accepted. -/
theorem claim9_witness : check_solution pG (fun _ => true) = Except.ok () :=
  claim9_allwall_accepted pG (by
    intro c
    unfold Puzzle.get_tile
    split <;> rfl)

/-- C10: the debug flag only controls diagnostic printing (modelled as
the emitted message log); the verdict of `check_solution` is the same
with the flag set and cleared. -/
theorem claim10_debug_flag_no_influence (p : Puzzle) (s : Solution) :
    (checkSolutionLog p s true).1 = (checkSolutionLog p s false).1 := by
  rw [checkSolutionLog_fst, checkSolutionLog_fst]

/-- C1 counterexample: on the 3x3 board `pB` whose whole border ring lies
off-board, the claim says no window can be accepted (an off-board border
position is never open), so `check_chest` should fail with
`NoTreasureRoom`; but the solution `sB` reports the off-board position
(0,3) as not a wall and the code accepts the window at corner (0,0). -/
theorem claim1_counterexample :
    check_chest pB sB (1, 1) = Except.ok (windowCells 0 0) ∧
    ((chestCorners pB (1, 1)).all
      fun cc => !claimGoodCorner pB sB cc.1 cc.2) = true := by
  exact ⟨by rfl, by decide⟩

/-- C1 amended: for solutions that answer wall at every off-board
coordinate (the checker queries `is_wall` beyond the right and bottom
edges instead of pre-filtering them), `check_chest` accepts exactly when
some candidate window has all 9 cells non-wall and exactly one open
border-ring position — open meaning on-board and non-wall — returning
that window's 9 cells, and otherwise fails with `NoTreasureRoom` at the
chest coordinate. -/
theorem claim1_check_chest_characterization (p : Puzzle) (s : Solution)
    (chest : Coord) (hOOB : ∀ c, ¬inBounds p c → s c = true) :
    (∀ owned, check_chest p s chest = Except.ok owned →
      ∃ cc ∈ chestCorners p chest, claimGoodCorner p s cc.1 cc.2 = true ∧
        owned = windowCells cc.1 cc.2) ∧
    (∀ e, check_chest p s chest = Except.error e →
      e = ⟨chest, FailureReason.NoTreasureRoom⟩ ∧
        ∀ cc ∈ chestCorners p chest, claimGoodCorner p s cc.1 cc.2 = false) := by
  constructor
  · intro owned hok
    obtain ⟨cc, hcc, htc⟩ := check_chest_ok_elim hok
    obtain ⟨hall, hcnt, howned⟩ := tryCorner_some_iff.mp htc
    exact ⟨cc, hcc, (claimGoodCorner_iff hOOB).mpr ⟨hall, hcnt⟩, howned⟩
  · intro e herr
    obtain ⟨he, hnone⟩ := check_chest_err_elim herr
    refine ⟨he, fun cc hcc => ?_⟩
    cases hg : claimGoodCorner p s cc.1 cc.2
    · rfl
    · obtain ⟨hall, hcnt⟩ := (claimGoodCorner_iff hOOB).mp hg
      have : tryCorner s cc.1 cc.2 = some (windowCells cc.1 cc.2) :=
        tryCorner_some_iff.mpr ⟨hall, hcnt, rfl⟩
      rw [hnone cc hcc] at this
      exact absurd this (by simp)

/-- C1 witness: on the 3x4 board `pA` with the off-board-as-wall
solution `sA1`, the accepted room of the chest at (1,1) comes from a
candidate corner satisfying the claim's window condition. -/
theorem claim1_witness :
    ∃ cc ∈ chestCorners pA ((1, 1) : Coord),
      claimGoodCorner pA sA1 cc.1 cc.2 = true ∧
        ([((0, 0) : Coord), (1, 0), (2, 0), (0, 1), (1, 1), (2, 1),
          (0, 2), (1, 2), (2, 2)] : List Coord) = windowCells cc.1 cc.2 :=
  (claim1_check_chest_characterization pA sA1 (1, 1) (by
    intro c h
    cases ho : openA c
    · simp [sA1, ho]
    · exfalso
      apply h
      rcases c with ⟨x, y⟩
      simp only [openA, Bool.or_eq_true, Bool.and_eq_true, decide_eq_true_eq,
        Prod.mk.injEq] at ho
      rcases ho with ⟨h1, h2⟩ | ⟨h1, h2⟩
      · exact ⟨h1, by show y < 4; omega⟩
      · subst h1
        subst h2
        exact ⟨by decide, by decide⟩)).1 _ (by rfl)

/-- C2 counterexample: the chest of `pC` sits at (0,0), and `check_chest`
accepts the window with corner (1,0) — a window that does not contain
the chest (the corner range extends past the chest when its coordinate
is below 2), refuting that every accepted 9-cell room contains the
chest. -/
theorem claim2_counterexample :
    check_chest pC sC (0, 0) = Except.ok (windowCells 1 0) ∧
    ((0, 0) : Coord) ∉ windowCells 1 0 := by
  exact ⟨by rfl, by decide⟩

/-- C2 amended: the scanned corner range is
`[chest.x ∸ 2, min (chest.x ∸ 2 + 2) width]` (and likewise for y), so it
matches the claim's `[chest.x - 2, chest.x]` only when `chest.x ≥ 2`;
under that side condition (both coordinates at least 2, the chest on the
board, and the solution reporting off-board positions as walls), every
accepted room contains the chest and consists of in-bounds cells. -/
theorem claim2_accepted_room (p : Puzzle) (s : Solution) (chest : Coord)
    (hx : 2 ≤ chest.1) (hy : 2 ≤ chest.2) (hb : inBounds p chest)
    (hOOB : ∀ c, ¬inBounds p c → s c = true) :
    ∀ owned, check_chest p s chest = Except.ok owned →
      chest ∈ owned ∧ ∀ c ∈ owned, inBounds p c := by
  intro owned hok
  obtain ⟨cc, hcc, htc⟩ := check_chest_ok_elim hok
  obtain ⟨hall, _, howned⟩ := tryCorner_some_iff.mp htc
  obtain ⟨⟨hx1, hx2⟩, hy1, hy2⟩ := mem_chestCorners.mp hcc
  obtain ⟨hbx, hby⟩ := hb
  subst howned
  constructor
  · rw [mem_windowCells]
    omega
  · intro c hc
    by_contra hnb
    have := hall c hc
    rw [hOOB c hnb] at this
    exact absurd this (by simp)

/-- C2 witness: on the 5x5 board `pJ` the chest at (2,2) is inside its
accepted room. -/
theorem claim2_witness : ((2, 2) : Coord) ∈ windowCells 1 1 :=
  (claim2_accepted_room pJ sJ (2, 2) (by decide) (by decide) (by decide)
    (by
      intro c h
      cases hsj : sJ c
      · exfalso
        apply h
        rcases c with ⟨x, y⟩
        simp only [sJ, Bool.not_eq_false', Bool.or_eq_true, Bool.and_eq_true,
          decide_eq_true_eq, Prod.mk.injEq] at hsj
        rcases hsj with ⟨⟨⟨hx1, hx2⟩, hy1⟩, hy2⟩ | ⟨rfl, rfl⟩
        · exact ⟨by show x < 5; omega, by show y < 5; omega⟩
        · exact ⟨by decide, by decide⟩
      · rfl)
    (windowCells 1 1) (by rfl)).1

/-- C3 counterexample: on the 3x1 board `pD` the open cell (0,0) is a
monsterless dead end (4 blocked neighbors, no monster), but the claimed
`DeadEndWithoutMonster` failure is preempted: the sweep finds the wall
covering the monster at (2,0) first and the checker fails with
`WallOverlapsFilledTile` instead. -/
theorem claim3_counterexample :
    deadEndBad pD sD (0, 0) ∧
    reasonOf (check_solution pD sD) =
      some (FailureReason.WallOverlapsFilledTile Tile.Monster) := by
  exact ⟨by decide, by rfl⟩

/-- C3 amended: a solution containing an open cell that violates the
dead-end/monster correspondence is never accepted; when the checker does
fail with `DeadEndWithoutMonster` at a cell, that cell is an open dead
end (3 or 4 blocked orthogonal neighbors) without a monster, and when it
fails with `MonsterWithoutDeadEnd` at a cell, that cell is open with at
most 2 blocked neighbors and carries a monster; the failure can however
be preempted by an earlier check (a wall overlap, a discontiguity, or a
violation at a cell visited earlier). -/
theorem claim3_deadend_monster (p : Puzzle) (s : Solution) :
    ((∃ c, deadEndBad p s c ∨ monsterBad p s c) →
      check_solution p s ≠ Except.ok ()) ∧
    (∀ c, check_solution p s =
        Except.error ⟨c, FailureReason.DeadEndWithoutMonster⟩ →
      deadEndBad p s c) ∧
    (∀ c, check_solution p s =
        Except.error ⟨c, FailureReason.MonsterWithoutDeadEnd⟩ →
      monsterBad p s c) := by
  refine ⟨?_, ?_, ?_⟩
  · rintro ⟨c, hbad⟩ hok
    unfold check_solution at hok
    cases hcs : check_shape p s with
    | error e => rw [hcs] at hok; exact absurd hok (by simp)
    | ok parts =>
      rcases parts with ⟨chests, bigs⟩
      obtain ⟨_, _, hrule⟩ := check_shape_ok_elim hcs
      rcases hbad with ⟨hoc, h3, hnm⟩ | ⟨hoc, h2, hm⟩
      · exact hnm ((hrule c (mem_openingsOf.mpr hoc)).mpr h3)
      · exact absurd ((hrule c (mem_openingsOf.mpr hoc)).mp hm) (by omega)
  · intro c h
    unfold check_solution at h
    cases hcs : check_shape p s with
    | error e =>
      rw [hcs] at h
      simp only [Except.error.injEq] at h
      subst h
      rcases check_shape_err_elim hcs with hsw | ⟨_, hloop⟩
      · obtain ⟨t, hr, _, _, _⟩ := sweep_err_elim hsw
        exact absurd hr (by simp)
      · obtain ⟨hpos, hcases⟩ := shapeLoop_err_elim hloop
        rcases hcases with ⟨hr, _⟩ | ⟨hr, _⟩ | ⟨_, _, hnm, h3⟩
        · exact absurd hr (by simp)
        · exact absurd hr (by simp)
        · refine ⟨mem_openingsOf.mp hpos, ?_, ?_⟩
          · rw [← blockedCount_eq_semBlocked]
            exact h3
          · intro hmon
            have := monsters_contains.mpr hmon
            rw [hnm] at this
            exact absurd this (by simp)
    | ok parts =>
      rcases parts with ⟨chests, bigs⟩
      rw [hcs] at h
      simp only at h
      cases hcl : chestLoop p s chests with
      | error e2 =>
        rw [hcl] at h
        simp only [Except.error.injEq] at h
        obtain ⟨hr, _⟩ := chestLoop_err_elim hcl
        rw [h] at hr
        exact absurd hr (by simp)
      | ok claimed =>
        rw [hcl] at h
        simp only at h
        cases hfil : bigs.filter (fun d => !claimed.contains d) with
        | nil => rw [hfil] at h; exact absurd h (by simp)
        | cons u rest =>
          rw [hfil] at h
          simp only [Except.error.injEq, Failure.mk.injEq] at h
          exact absurd h.2 (by simp)
  · intro c h
    unfold check_solution at h
    cases hcs : check_shape p s with
    | error e =>
      rw [hcs] at h
      simp only [Except.error.injEq] at h
      subst h
      rcases check_shape_err_elim hcs with hsw | ⟨_, hloop⟩
      · obtain ⟨t, hr, _, _, _⟩ := sweep_err_elim hsw
        exact absurd hr (by simp)
      · obtain ⟨hpos, hcases⟩ := shapeLoop_err_elim hloop
        rcases hcases with ⟨hr, _⟩ | ⟨_, _, hm, h2⟩ | ⟨hr, _⟩
        · exact absurd hr (by simp)
        · refine ⟨mem_openingsOf.mp hpos, ?_, monsters_contains.mp hm⟩
          rw [← blockedCount_eq_semBlocked]
          exact h2
        · exact absurd hr (by simp)
    | ok parts =>
      rcases parts with ⟨chests, bigs⟩
      rw [hcs] at h
      simp only at h
      cases hcl : chestLoop p s chests with
      | error e2 =>
        rw [hcl] at h
        simp only [Except.error.injEq] at h
        obtain ⟨hr, _⟩ := chestLoop_err_elim hcl
        rw [h] at hr
        exact absurd hr (by simp)
      | ok claimed =>
        rw [hcl] at h
        simp only at h
        cases hfil : bigs.filter (fun d => !claimed.contains d) with
        | nil => rw [hfil] at h; exact absurd h (by simp)
        | cons u rest =>
          rw [hfil] at h
          simp only [Except.error.injEq, Failure.mk.injEq] at h
          exact absurd h.2 (by simp)

/-- C3 witness: the board `pE` with two isolated monsterless dead ends is
never accepted. -/
theorem claim3_witness : check_solution pE sE ≠ Except.ok () :=
  (claim3_deadend_monster pE sE).1 ⟨(0, 0), Or.inl (by decide)⟩

/-- C4 counterexample: on the 4x4 board `pF` the cell (0,0) sits in a
fully open 2x2 block and no chest room claims it (there are no chests at
all), yet the checker fails with `DiscontiguousAreas` (the isolated cell
(3,3) is found first), not with `LargeAreaOutsideOfTreasureRoom` as the
claim demands. -/
theorem claim4_counterexample :
    openCell pF sF (0, 0) ∧ oversizedAt pF sF (0, 0) = true ∧
    reasonOf (check_solution pF sF) = some FailureReason.DiscontiguousAreas := by
  exact ⟨by decide, by decide, by rfl⟩

/-- C4 amended: `check_solution` fails with
`LargeAreaOutsideOfTreasureRoom` at a cell exactly in the situation
where the shape phase and every chest check succeed and some open
elbow-oversized cell is outside the claimed union; the failing cell is
such a cell. (When a different violation exists, an earlier phase may
preempt this failure.) -/
theorem claim4_unclaimed_oversized (p : Puzzle) (s : Solution) :
    (∀ c, check_solution p s =
        Except.error ⟨c, FailureReason.LargeAreaOutsideOfTreasureRoom⟩ →
      ∃ chests bigs claimed, check_shape p s = Except.ok (chests, bigs) ∧
        chestLoop p s chests = Except.ok claimed ∧
        openCell p s c ∧ oversizedAt p s c = true ∧ claimed.contains c = false) ∧
    (∀ chests bigs claimed, check_shape p s = Except.ok (chests, bigs) →
      chestLoop p s chests = Except.ok claimed →
      ∀ c, openCell p s c → oversizedAt p s c = true →
        claimed.contains c = false →
        ∃ c2, check_solution p s =
            Except.error ⟨c2, FailureReason.LargeAreaOutsideOfTreasureRoom⟩ ∧
          openCell p s c2 ∧ oversizedAt p s c2 = true ∧
          claimed.contains c2 = false) := by
  constructor
  · intro c h
    unfold check_solution at h
    cases hcs : check_shape p s with
    | error e =>
      rw [hcs] at h
      simp only [Except.error.injEq] at h
      subst h
      rcases check_shape_err_elim hcs with hsw | ⟨_, hloop⟩
      · obtain ⟨t, hr, _, _, _⟩ := sweep_err_elim hsw
        exact absurd hr (by simp)
      · obtain ⟨_, hcases⟩ := shapeLoop_err_elim hloop
        rcases hcases with ⟨hr, _⟩ | ⟨hr, _⟩ | ⟨hr, _⟩ <;>
          exact absurd hr (by simp)
    | ok parts =>
      rcases parts with ⟨chests, bigs⟩
      rw [hcs] at h
      simp only at h
      cases hcl : chestLoop p s chests with
      | error e2 =>
        rw [hcl] at h
        simp only [Except.error.injEq] at h
        obtain ⟨hr, _⟩ := chestLoop_err_elim hcl
        rw [h] at hr
        exact absurd hr (by simp)
      | ok claimed =>
        rw [hcl] at h
        simp only at h
        cases hfil : bigs.filter (fun d => !claimed.contains d) with
        | nil => rw [hfil] at h; exact absurd h (by simp)
        | cons u rest =>
          rw [hfil] at h
          simp only [Except.error.injEq, Failure.mk.injEq] at h
          have hu : u ∈ bigs.filter (fun d => !claimed.contains d) := by
            rw [hfil]; exact List.mem_cons_self _ _
          obtain ⟨hub, huc⟩ := List.mem_filter.mp hu
          obtain ⟨_, hbigs, _⟩ := check_shape_ok_elim hcs
          rw [hbigs] at hub
          obtain ⟨huo, huov⟩ := List.mem_filter.mp hub
          rw [← h.1]
          exact ⟨chests, bigs, claimed, rfl, hcl, mem_openingsOf.mp huo,
            huov, by simpa using huc⟩
  · intro chests bigs claimed hcs hcl c hoc hov hcc
    obtain ⟨_, hbigs, _⟩ := check_shape_ok_elim hcs
    have hcbigs : c ∈ bigs := by
      rw [hbigs]
      exact List.mem_filter.mpr ⟨mem_openingsOf.mpr hoc, hov⟩
    have hcfil : c ∈ bigs.filter (fun d => !claimed.contains d) :=
      List.mem_filter.mpr ⟨hcbigs, by rw [hcc]; rfl⟩
    cases hfil : bigs.filter (fun d => !claimed.contains d) with
    | nil => rw [hfil] at hcfil; exact absurd hcfil (by simp)
    | cons u rest =>
      have hu : u ∈ bigs.filter (fun d => !claimed.contains d) := by
        rw [hfil]; exact List.mem_cons_self _ _
      obtain ⟨hub, huc⟩ := List.mem_filter.mp hu
      rw [hbigs] at hub
      obtain ⟨huo, huov⟩ := List.mem_filter.mp hub
      refine ⟨u, ?_, mem_openingsOf.mp huo, huov, by simpa using huc⟩
      unfold check_solution
      rw [hcs]
      simp only
      rw [hcl]
      simp only
      rw [hfil]

/-- C4 witness: on the tile-free 2x2 board with everything open, the
shape phase succeeds, there are no chests, and the unclaimed oversized
cell (0,0) makes the checker fail with `LargeAreaOutsideOfTreasureRoom`
at an unclaimed oversized cell. -/
theorem claim4_witness :
    ∃ c2, check_solution pG (fun _ => false) =
        Except.error ⟨c2, FailureReason.LargeAreaOutsideOfTreasureRoom⟩ ∧
      openCell pG (fun _ => false) c2 ∧
      oversizedAt pG (fun _ => false) c2 = true ∧
      (([] : List Coord).contains c2 = false) :=
  (claim4_unclaimed_oversized pG (fun _ => false)).2
    [] [(0, 0), (1, 0), (0, 1), (1, 1)] [] (by rfl) (by rfl)
    (0, 0) (by decide) (by decide) (by decide)

/-- C5 counterexample: on the tile-free 3x1 board `pE` the open cells
(0,0) and (2,0) form two components, yet the checker does not report
`DiscontiguousAreas`: the very first open cell is a monsterless dead
end, so the interleaved dead-end check fails first with
`DeadEndWithoutMonster`. -/
theorem claim5_counterexample :
    openCell pE sE (0, 0) ∧ openCell pE sE (2, 0) ∧
    ¬ Reach pE sE (0, 0) (2, 0) ∧
    reasonOf (check_solution pE sE) =
      some FailureReason.DeadEndWithoutMonster := by
  refine ⟨by decide, by decide, ?_, by rfl⟩
  intro h
  rcases Relation.ReflTransGen.cases_head h with heq | ⟨v, hstep, _⟩
  · exact absurd heq (by decide)
  · obtain ⟨_, hoc, hmem⟩ := hstep
    have hv : v = ((1, 0) : Coord) ∨ v = ((0, 1) : Coord) := by
      rcases v with ⟨vx, vy⟩
      have hch := mem_neighbors4.mp hmem
      dsimp only at hch
      rcases hch with ⟨h1, h2 | h2⟩ | ⟨h1, h2 | h2⟩
      · omega
      · right; simp only [Prod.mk.injEq]; omega
      · omega
      · left; simp only [Prod.mk.injEq]; omega
    rcases hv with rfl | rfl
    · exact absurd hoc (by decide)
    · exact absurd hoc (by decide)

/-- C5 amended: when no wall covers a fixed tile, the open cells split
into two or more components under 4-adjacency, and additionally every
open cell satisfies the dead-end/monster correspondence (otherwise the
interleaved dead-end check can preempt the connectivity failure),
`check_solution` fails with `DiscontiguousAreas` at an open coordinate
not reached by the flood fill started from the first opening. -/
theorem claim5_discontiguous (p : Puzzle) (s : Solution)
    (hov : ∀ c, inBounds p c → p.get_tile c ≠ none → s c = false)
    (hcomp : ∃ a b, openCell p s a ∧ openCell p s b ∧ ¬ Reach p s a b)
    (hrule : ∀ c, openCell p s c → (monsterAt p c ↔ 3 ≤ semBlocked p s c)) :
    ∃ c, check_solution p s =
        Except.error ⟨c, FailureReason.DiscontiguousAreas⟩ ∧
      openCell p s c ∧ c ∉ reached p s := by
  obtain ⟨a, b, hoa, hob, hnr⟩ := hcomp
  cases hsw : sweep p s (coords p) with
  | error e =>
    exfalso
    obtain ⟨t, _, hgt, hw, _⟩ := sweep_err_elim hsw
    have hbnd := get_tile_some_inBounds hgt
    have hfw := hov e.pos hbnd (by rw [hgt]; simp)
    rw [hfw] at hw
    exact absurd hw (by simp)
  | ok parts =>
    rcases parts with ⟨o, m, ch⟩
    obtain ⟨ho, hm, hch⟩ := sweep_ok_parts hsw
    have hamem : a ∈ openingsOf p s := mem_openingsOf.mpr hoa
    cases hoe : openingsOf p s with
    | nil => rw [hoe] at hamem; exact absurd hamem (by simp)
    | cons st rest =>
      have holist : o = st :: rest := by
        have hoo : o = openingsOf p s := ho
        exact hoo.trans hoe
      have hre : reached p s =
          floodfill (st :: rest) (4 * (st :: rest).length + 2) [st] [] := by
        unfold reached
        rw [hoe]
      have hst : st ∈ openingsOf p s := by
        rw [hoe]; exact List.mem_cons_self _ _
      have hsound : ∀ x, x ∈ reached p s → Reach p s st x := by
        intro x hx
        rw [hre] at hx
        have hx2 : x ∈ floodfill (openingsOf p s)
            (4 * (st :: rest).length + 2) [st] [] := by
          rw [hoe]; exact hx
        have htodo : ∀ t ∈ ([st] : List Coord), t ∈ openingsOf p s := by
          intro t ht
          rcases List.mem_singleton.mp ht with rfl
          exact hst
        rcases floodfill_sound htodo hx2 with h0 | ⟨t, ht, hr⟩
        · exact absurd h0 (by simp)
        · rcases List.mem_singleton.mp ht with rfl
          exact hr
      have hune : ∃ u, openCell p s u ∧ u ∉ reached p s := by
        by_cases hra : a ∈ reached p s
        · refine ⟨b, hob, fun hrb => ?_⟩
          exact hnr (Relation.ReflTransGen.trans
            ((Relation.ReflTransGen.symmetric adjStep_symm) (hsound a hra))
            (hsound b hrb))
        · exact ⟨a, hoa, hra⟩
      obtain ⟨u, hou, hur⟩ := hune
      have hrule2 : ∀ c ∈ (st :: rest : List Coord),
          (floodfill (st :: rest) (4 * (st :: rest).length + 2)
            [st] []).contains c = true →
          (m.contains c = true ↔ 3 ≤ blockedCount (st :: rest) c) := by
        intro c hc _
        have hoc : openCell p s c := mem_openingsOf.mp (by rw [hoe]; exact hc)
        have hiff := hrule c hoc
        have hbl : blockedCount (st :: rest) c = semBlocked p s c := by
          rw [show (st :: rest : List Coord) = openingsOf p s from hoe.symm]
          exact blockedCount_eq_semBlocked
        constructor
        · intro hmc
          rw [hbl]
          refine hiff.mp (monsters_contains.mp ?_)
          rw [← hm]
          exact hmc
        · intro h3
          rw [hbl] at h3
          rw [hm]
          exact monsters_contains.mpr (hiff.mpr h3)
      have hex : ∃ w ∈ (st :: rest : List Coord),
          (floodfill (st :: rest) (4 * (st :: rest).length + 2)
            [st] []).contains w = false := by
        refine ⟨u, by rw [← hoe]; exact mem_openingsOf.mpr hou, ?_⟩
        cases hcu : (floodfill (st :: rest) (4 * (st :: rest).length + 2)
            [st] []).contains u
        · rfl
        · exfalso
          apply hur
          rw [hre]
          exact contains_iff.mp hcu
      obtain ⟨c, hloop, hcin, hcr⟩ := shapeLoop_discont hrule2 hex
      refine ⟨c, ?_, mem_openingsOf.mp (by rw [hoe]; exact hcin), ?_⟩
      · unfold check_solution check_shape
        rw [hsw]
        simp only
        rw [holist]
        simp only
        rw [hloop]
      · rw [hre]
        intro hcm
        have := contains_iff.mpr hcm
        rw [hcr] at this
        exact absurd this (by simp)

/-- C5 witness: the 5x1 board `pI` has two correctly monstered dead ends
in two separate components; the checker fails with `DiscontiguousAreas`
at an unreached open cell. -/
theorem claim5_witness :
    ∃ c, check_solution pI sI =
        Except.error ⟨c, FailureReason.DiscontiguousAreas⟩ ∧
      openCell pI sI c ∧ c ∉ reached pI sI :=
  claim5_discontiguous pI sI
    (by
      intro c hb ht
      by_cases h0 : c = ((0, 0) : Coord)
      · subst h0; rfl
      · by_cases h2 : c = ((2, 0) : Coord)
        · subst h2; rfl
        · exfalso
          apply ht
          unfold Puzzle.get_tile
          rw [if_pos (show c.1 < pI.width ∧ c.2 < pI.height from hb)]
          have hcond : (decide (c = ((0, 0) : Coord)) ||
              decide (c = ((2, 0) : Coord))) = false := by
            simp only [Bool.or_eq_false_iff, decide_eq_false_iff_not]
            exact ⟨h0, h2⟩
          simp only [pI]
          rw [hcond]
          rfl)
    ⟨(0, 0), (2, 0), by decide, by decide, by
      intro h
      rcases Relation.ReflTransGen.cases_head h with heq | ⟨v, hstep, _⟩
      · exact absurd heq (by decide)
      · obtain ⟨_, hoc, hmem⟩ := hstep
        have hv : v = ((1, 0) : Coord) ∨ v = ((0, 1) : Coord) := by
          rcases v with ⟨vx, vy⟩
          have hch := mem_neighbors4.mp hmem
          dsimp only at hch
          rcases hch with ⟨h1, h2 | h2⟩ | ⟨h1, h2 | h2⟩
          · omega
          · right; simp only [Prod.mk.injEq]; omega
          · omega
          · left; simp only [Prod.mk.injEq]; omega
        rcases hv with rfl | rfl
        · exact absurd hoc (by decide)
        · exact absurd hoc (by decide)⟩
    (by
      intro c hc
      obtain ⟨hb, hs⟩ := hc
      have hc2 : c = ((0, 0) : Coord) ∨ c = ((2, 0) : Coord) := by
        simpa only [sI, Bool.not_eq_false', Bool.or_eq_true,
          decide_eq_true_eq] using hs
      rcases hc2 with rfl | rfl
      · decide
      · decide)

end Tombcrawler
